import Mathlib

/-
Verification of the privacy-score estimation core (Quantus-Network/privacy-score).

The canonical bucketed implementation lives in src/ts/src/index.ts; a flat
(non-bucketed) reference implementation appears alongside the TypeScript test
suite and in the Dart port. JavaScript numbers are modelled as real numbers,
BigInt amounts as integers, and the exact rational bucket boundaries as
rationals. Division by zero follows the Lean convention (x / 0 = 0); IEEE
NaN / Infinity artefacts are outside this idealisation and are discussed where
relevant in the results.
-/

namespace PrivacyScore

/-- One DEV in planck, the constant UNIT of src/ts/src/index.ts line 19. -/
def UNIT : ℚ := 1000000000000

/-- A single bucket of deposit pool statistics (interface PoolBucket,
src/ts/src/index.ts lines 24-35). Bounds are the exact rational values the
JavaScript numbers hold; count is an integer-valued number; the two sums are
BigInt. -/
structure PoolBucket where
  lo : ℚ
  hi : ℚ
  count : ℤ
  sumAmounts : ℤ
  sumAmountsSquared : ℤ
deriving DecidableEq

/-- Bucketed deposit pool statistics (interface DepositPoolStats,
src/ts/src/index.ts lines 40-42). -/
structure DepositPoolStats where
  buckets : List PoolBucket
deriving DecidableEq

/-- Standard bucket boundaries (src/ts/src/index.ts lines 60-74): bucket
zero is [0, 1 DEV), then [2^i, 2^i * 16) DEV for i = 0, ..., 11. -/
def standardBucketBoundaries : List (ℚ × ℚ) :=
  (0, 1 * UNIT) :: (List.range 12).map (fun i => (2 ^ i * UNIT, 2 ^ i * 16 * UNIT))

/-- Create an empty pool with the standard buckets (src/ts/src/index.ts
lines 79-90). -/
def createPool : DepositPoolStats :=
  { buckets := standardBucketBoundaries.map (fun b =>
      { lo := b.1, hi := b.2, count := 0, sumAmounts := 0, sumAmountsSquared := 0 }) }

/-- Add a deposit to every bucket whose half-open range contains the amount
(src/ts/src/index.ts lines 95-104). -/
def addDeposit (pool : DepositPoolStats) (amount : ℤ) : DepositPoolStats :=
  { buckets := pool.buckets.map (fun b =>
      if b.lo ≤ (amount : ℚ) ∧ (amount : ℚ) < b.hi then
        { b with count := b.count + 1,
                 sumAmounts := b.sumAmounts + amount,
                 sumAmountsSquared := b.sumAmountsSquared + amount * amount }
      else b) }

/-- Remove a deposit from every containing bucket, clamping the count and the
two sums at a zero floor (src/ts/src/index.ts lines 109-120). -/
def removeDeposit (pool : DepositPoolStats) (amount : ℤ) : DepositPoolStats :=
  { buckets := pool.buckets.map (fun b =>
      if b.lo ≤ (amount : ℚ) ∧ (amount : ℚ) < b.hi then
        { b with count := max 0 (b.count - 1),
                 sumAmounts :=
                   if b.sumAmounts - amount < 0 then 0 else b.sumAmounts - amount,
                 sumAmountsSquared :=
                   if b.sumAmountsSquared - amount * amount < 0 then 0
                   else b.sumAmountsSquared - amount * amount }
      else b) }

/-- A pool maintenance event: one addDeposit or one removeDeposit call. -/
inductive PoolOp where
  | add (amount : ℤ) : PoolOp
  | remove (amount : ℤ) : PoolOp
deriving DecidableEq

/-- Amount carried by a pool operation. -/
def PoolOp.amount : PoolOp → ℤ
  | .add a => a
  | .remove a => a

/-- Apply one pool operation. -/
def applyOp (pool : DepositPoolStats) : PoolOp → DepositPoolStats
  | .add a => addDeposit pool a
  | .remove a => removeDeposit pool a

/-- Apply a sequence of pool operations in order. -/
def applyOps (pool : DepositPoolStats) (ops : List PoolOp) : DepositPoolStats :=
  ops.foldl applyOp pool

/-- Decimal string of a natural number, as produced by BigInt.toString. -/
def natToDecString (n : ℕ) : String :=
  if n = 0 then "0"
  else ⟨((Nat.digits 10 n).reverse.map Nat.digitChar)⟩

/-- Decimal string of an integer, as produced by BigInt.toString
(src/ts/src/index.ts lines 344-345 serialize the two sums this way). -/
def intToDecString (n : ℤ) : String :=
  if n < 0 then "-" ++ natToDecString n.natAbs else natToDecString n.toNat

/-- Value of a list of decimal digit characters, most significant first. -/
def decDigitsVal (l : List Char) : ℕ :=
  Nat.ofDigits 10 ((l.map (fun c => c.toNat - 48)).reverse)

/-- Parse a decimal string to an integer, as BigInt(string) does on the
output of BigInt.toString (src/ts/src/index.ts lines 361-362). -/
def decStringToInt (s : String) : ℤ :=
  match s.data with
  | [] => 0
  | c :: cs => if c = '-' then -(decDigitsVal cs : ℤ) else (decDigitsVal (c :: cs) : ℤ)

/-- Wire form of one bucket (src/ts/src/index.ts lines 340-346): bounds and
count travel as JSON numbers, the two sums as decimal strings. -/
structure PoolBucketJson where
  lo : ℚ
  hi : ℚ
  count : ℤ
  sumAmounts : String
  sumAmountsSquared : String
deriving DecidableEq

/-- Serialize pool statistics (poolToJson, src/ts/src/index.ts lines 338-348);
the JSON text layer is modelled by the structured list it encodes. -/
def poolToJson (pool : DepositPoolStats) : List PoolBucketJson :=
  pool.buckets.map (fun b =>
    { lo := b.lo, hi := b.hi, count := b.count,
      sumAmounts := intToDecString b.sumAmounts,
      sumAmountsSquared := intToDecString b.sumAmountsSquared })

/-- Deserialize pool statistics (poolFromJson, src/ts/src/index.ts
lines 353-366). -/
def poolFromJson (json : List PoolBucketJson) : DepositPoolStats :=
  { buckets := json.map (fun b =>
      { lo := b.lo, hi := b.hi, count := b.count,
        sumAmounts := decStringToInt b.sumAmounts,
        sumAmountsSquared := decStringToInt b.sumAmountsSquared }) }

/-- Coefficient a1 of the Abramowitz-Stegun 26.2.17 approximation
(src/ts/src/index.ts line 129). -/
def a1 : ℝ := 0.254829592

/-- Coefficient a2 (src/ts/src/index.ts line 130). -/
def a2 : ℝ := -0.284496736

/-- Coefficient a3 (src/ts/src/index.ts line 131). -/
def a3 : ℝ := 1.421413741

/-- Coefficient a4 (src/ts/src/index.ts line 132). -/
def a4 : ℝ := -1.453152027

/-- Coefficient a5 (src/ts/src/index.ts line 133). -/
def a5 : ℝ := 1.061405429

/-- Coefficient p (src/ts/src/index.ts line 134). -/
def pAS : ℝ := 0.3275911

/-- Horner polynomial ((((a5 t + a4) t + a3) t + a2) t + a1) t appearing in
normalCdf (src/ts/src/index.ts line 139). -/
def P5 (t : ℝ) : ℝ := ((((a5 * t + a4) * t + a3) * t + a2) * t + a1) * t

/-- P5 with the outermost factor of t stripped (analysis helper). -/
def Q4 (t : ℝ) : ℝ := a1 + a2 * t + a3 * t ^ 2 + a4 * t ^ 3 + a5 * t ^ 4

/-- Degree-six polynomial controlling the sign of the derivative of the CDF
body (analysis helper). -/
def Hpoly (t : ℝ) : ℝ :=
  pAS ^ 2 * t ^ 2 * (a1 + 2 * a2 * t + 3 * a3 * t ^ 2 + 4 * a4 * t ^ 3 + 5 * a5 * t ^ 4)
    + 2 * (1 - t) * Q4 t

/-- Formal derivative of P5 (analysis helper). -/
def P5d (t : ℝ) : ℝ := a1 + 2 * a2 * t + 3 * a3 * t ^ 2 + 4 * a4 * t ^ 3 + 5 * a5 * t ^ 4

/-- Body of the CDF approximation as a function of x = |z| / sqrt 2
(analysis helper): the quantity P5(t) exp(-x^2) subtracted from 1 in
src/ts/src/index.ts line 139. -/
noncomputable def Ebody (x : ℝ) : ℝ := P5 (1 / (1 + pAS * x)) * Real.exp (-(x * x))

/-- Standard normal CDF approximation, Abramowitz-Stegun 26.2.17
(normalCdf, src/ts/src/index.ts lines 125-142). -/
noncomputable def normalCdf (z : ℝ) : ℝ :=
  if z < -8 then 0
  else if z > 8 then 1
  else
    let sign : ℝ := if z < 0 then -1 else 1
    let x := |z| / Real.sqrt 2
    let t := 1 / (1 + pAS * x)
    let y := 1 - P5 t * Real.exp (-(x * x))
    0.5 * (1 + sign * y)

/-- Log base two of the binomial coefficient C(n, k), computed iteratively in
log space (log2Binomial, src/ts/src/index.ts lines 147-157). -/
noncomputable def log2Binomial (n k : ℤ) : ℝ :=
  if k < 0 ∨ n < k then 0
  else if k = 0 ∨ k = n then 0
  else
    let kk := min k (n - k)
    ((List.range kk.toNat).map
      (fun i : ℕ => Real.logb 2 ((n : ℝ) - i) - Real.logb 2 ((i : ℝ) + 1))).sum

/-- Qualification test of selectBucket (src/ts/src/index.ts lines 176-180):
the bucket is non-empty and its half-open range contains the target. -/
def qualifies (target : ℝ) (b : PoolBucket) : Prop :=
  b.count ≠ 0 ∧ (b.lo : ℝ) ≤ target ∧ target < (b.hi : ℝ)

noncomputable instance (target : ℝ) (b : PoolBucket) : Decidable (qualifies target b) := by
  unfold qualifies; infer_instance

/-- One iteration of the selectBucket scan (src/ts/src/index.ts lines
175-188). The running state pairs the best bucket so far with its headroom;
none models the initial best = null / bestHeadroom = Infinity state. -/
noncomputable def selectBucketStep (target : ℝ) (st : Option (PoolBucket × ℝ))
    (b : PoolBucket) : Option (PoolBucket × ℝ) :=
  if b.count = 0 then st
  else if (b.lo : ℝ) ≤ target ∧ target < (b.hi : ℝ) then
    let headroom := (b.hi : ℝ) - target
    match st with
    | none => some (b, headroom)
    | some best => if headroom < best.2 then some (b, headroom) else st
  else st

/-- Select the qualifying bucket with the smallest headroom above the target
(selectBucket, src/ts/src/index.ts lines 168-191). -/
noncomputable def selectBucket (pool : DepositPoolStats) (target : ℝ) :
    Option PoolBucket :=
  (pool.buckets.foldl (selectBucketStep target) none).map Prod.fst

/-- Pre-fee multiplier 10000 / (10000 - feeBps)
(src/ts/src/index.ts line 216). -/
noncomputable def feeMultiplier (feeBps : ℤ) : ℝ := 10000 / (10000 - (feeBps : ℝ))

/-- Mean deposit amount of a bucket (src/ts/src/index.ts line 224). -/
noncomputable def bucketMu (b : PoolBucket) : ℝ :=
  (b.sumAmounts : ℝ) / (b.count : ℝ)

/-- Mean squared deposit amount of a bucket (src/ts/src/index.ts line 225). -/
noncomputable def bucketMeanSq (b : PoolBucket) : ℝ :=
  (b.sumAmountsSquared : ℝ) / (b.count : ℝ)

/-- Standard deviation of a bucket (src/ts/src/index.ts lines 226-227). -/
noncomputable def bucketSigma (b : PoolBucket) : ℝ :=
  Real.sqrt (max 0 (bucketMeanSq b - bucketMu b * bucketMu b))

/-- Integers from lo to hi inclusive, the iteration space of the k loop. -/
def intRange (lo hi : ℤ) : List ℤ :=
  (List.range (hi + 1 - lo).toNat).map (fun i : ℕ => lo + (i : ℤ))

/-- Body of one iteration of the k loop of privacyScore (src/ts/src/index.ts
lines 237-253): none models the continue on pK <= 0, some carries the log
term pushed onto logTerms. -/
noncomputable def kLogTerm (inputLo inputHi mu sigma : ℝ) (D k : ℤ) : Option ℝ :=
  let sumMean := (k : ℝ) * mu
  let sumStd := sigma * Real.sqrt (k : ℝ)
  let zLo := (inputLo - sumMean) / sumStd
  let zHi := (inputHi - sumMean) / sumStd
  let pK := normalCdf zHi - normalCdf zLo
  if pK ≤ 0 then none
  else some (log2Binomial D k + Real.logb 2 pK)

/-- Log-sum-exp in base two over a non-empty list of log terms
(src/ts/src/index.ts lines 234-263): the running maximum seeded with
negative infinity over a non-empty list is the fold of max over its tail
seeded with its head. -/
noncomputable def logSumExp2 (t : ℝ) (ts : List ℝ) : ℝ :=
  let maxLogTerm := ts.foldl max t
  let sumExp := ((t :: ts).map (fun lt => (2 : ℝ) ^ (lt - maxLogTerm))).sum
  maxLogTerm + Real.logb 2 sumExp

/-- Score computation once a bucket has been selected (privacyScore body
after the bucket lookup, src/ts/src/index.ts lines 221-263). -/
noncomputable def scoreFromBucket (inputLo inputHi : ℝ) (bucket : PoolBucket)
    (kMin kMax : ℤ) : ℝ :=
  if bucket.count = 0 then 0
  else
    let mu := bucketMu bucket
    let sigma := bucketSigma bucket
    if sigma = 0 then 0
    else
      let effectiveKMax := min kMax bucket.count
      if effectiveKMax < kMin then 0
      else
        match (intRange kMin effectiveKMax).filterMap
            (kLogTerm inputLo inputHi mu sigma bucket.count) with
        | [] => 0
        | t :: ts => max 0 (logSumExp2 t ts)

/-- Privacy score of a wormhole output (privacyScore, src/ts/src/index.ts
lines 207-264). -/
noncomputable def privacyScore (outputAmount dist : ℝ) (pool : DepositPoolStats)
    (feeBps kMin kMax : ℤ) : ℝ :=
  let inputLo := outputAmount * feeMultiplier feeBps
  let inputHi := (outputAmount + dist) * feeMultiplier feeBps
  match selectBucket pool inputLo with
  | none => 0
  | some bucket => scoreFromBucket inputLo inputHi bucket kMin kMax

/-- Human-readable label of a score (scoreLabel, src/ts/src/index.ts
lines 327-333). -/
noncomputable def scoreLabel (bits : ℝ) : String :=
  if bits < 10 then "Critical"
  else if bits < 20 then "Weak"
  else if bits < 40 then "Moderate"
  else if bits < 60 then "Strong"
  else "Very Strong"

/-- Result row of a privacy score table (interface PrivacyScoreResult,
src/ts/src/index.ts lines 47-51). -/
structure PrivacyScoreResult where
  dist : ℤ
  scoreBits : ℝ
  label : String

/-- Privacy scores at several dist levels (privacyScoreTable,
src/ts/src/index.ts lines 269-286); Math.round rounds half up, which is
Mathlib round. -/
noncomputable def privacyScoreTable (outputAmount : ℝ) (pool : DepositPoolStats)
    (feeBps kMin kMax : ℤ) (distFractions : List ℝ) : List PrivacyScoreResult :=
  distFractions.map (fun frac =>
    let dist : ℤ := ⌊outputAmount * frac⌋
    let bits := privacyScore outputAmount (dist : ℝ) pool feeBps kMin kMax
    { dist := dist,
      scoreBits := (round (bits * 10) : ℝ) / 10,
      label := scoreLabel bits })

/-- Binary search loop of findMinDist (src/ts/src/index.ts lines 310-321):
lo is known insufficient, hi known sufficient; Math.floor((lo+h)/2) on
integer-valued numbers is integer floor division. -/
noncomputable def searchLoop (score : ℤ → ℝ) (targetBits : ℝ) (lo hi : ℤ) : ℤ :=
  if _h : 1 < hi - lo then
    if targetBits ≤ score (Int.fdiv (lo + hi) 2) then
      searchLoop score targetBits lo (Int.fdiv (lo + hi) 2)
    else searchLoop score targetBits (Int.fdiv (lo + hi) 2) hi
  else hi
termination_by (hi - lo).toNat
decreasing_by
  · have hfd := Int.fdiv_eq_ediv (lo + hi) (by norm_num : (0:ℤ) ≤ 2)
    simp only [hfd]
    omega
  · have hfd := Int.fdiv_eq_ediv (lo + hi) (by norm_num : (0:ℤ) ≤ 2)
    simp only [hfd]
    omega

/-- Minimum dist achieving a target score, none when unreachable within the
allowed sacrifice (findMinDist, src/ts/src/index.ts lines 291-322). -/
noncomputable def findMinDist (outputAmount : ℝ) (pool : DepositPoolStats)
    (feeBps kMin kMax : ℤ) (targetBits maxDistFraction : ℝ) : Option ℤ :=
  let maxDist : ℤ := ⌊outputAmount * maxDistFraction⌋
  let score : ℤ → ℝ := fun d => privacyScore outputAmount (d : ℝ) pool feeBps kMin kMax
  if score maxDist < targetBits then none
  else if targetBits ≤ score 0 then some 0
  else some (searchLoop score targetBits 0 maxDist)

/-- Flat (non-bucketed) deposit pool statistics of the reference
implementation bundled with the TypeScript tests (src/ts/test/privacy.test.ts
flat variant, lines 214-221) and the Dart port (src/unnamed/part_001). -/
structure FlatPoolStats where
  totalDeposits : ℤ
  sumAmounts : ℤ
  sumAmountsSquared : ℤ
deriving DecidableEq

/-- Add a deposit to the flat statistics (flat variant addDeposit). -/
def flatAddDeposit (pool : FlatPoolStats) (amount : ℤ) : FlatPoolStats :=
  { totalDeposits := pool.totalDeposits + 1,
    sumAmounts := pool.sumAmounts + amount,
    sumAmountsSquared := pool.sumAmountsSquared + amount * amount }

/-- Mean of the flat statistics (flat variant poolMean). -/
noncomputable def poolMean (pool : FlatPoolStats) : ℝ :=
  if pool.totalDeposits = 0 then 0
  else (pool.sumAmounts : ℝ) / (pool.totalDeposits : ℝ)

/-- Standard deviation of the flat statistics (flat variant poolStddev),
zero for fewer than two deposits. -/
noncomputable def poolStddev (pool : FlatPoolStats) : ℝ :=
  if pool.totalDeposits < 2 then 0
  else
    let mean := (pool.sumAmounts : ℝ) / (pool.totalDeposits : ℝ)
    let meanSq := (pool.sumAmountsSquared : ℝ) / (pool.totalDeposits : ℝ)
    Real.sqrt (max 0 (meanSq - mean * mean))

/-- Privacy score of the flat reference implementation
(src/ts/test/privacy.test.ts flat variant, lines 341-400): same k loop, no
bucket selection and no final clamp at zero. -/
noncomputable def flatPrivacyScore (outputAmount dist : ℝ) (pool : FlatPoolStats)
    (feeBps kMin kMax : ℤ) : ℝ :=
  if pool.totalDeposits = 0 then 0
  else
    let mu := poolMean pool
    let sigma := poolStddev pool
    if sigma = 0 then 0
    else
      let inputLo := outputAmount * feeMultiplier feeBps
      let inputHi := (outputAmount + dist) * feeMultiplier feeBps
      let effectiveKMax := min kMax pool.totalDeposits
      if effectiveKMax < kMin then 0
      else
        match (intRange kMin effectiveKMax).filterMap
            (kLogTerm inputLo inputHi mu sigma pool.totalDeposits) with
        | [] => 0
        | t :: ts => logSumExp2 t ts

/-- Weight 2 ^ logTerm contributed by one k to the anonymity set estimate,
zero for a skipped k (proof-side reformulation of the k loop). -/
noncomputable def termWeight (inputLo inputHi mu sigma : ℝ) (D k : ℤ) : ℝ :=
  ((kLogTerm inputLo inputHi mu sigma D k).map (fun v => (2 : ℝ) ^ v)).getD 0

/-- Per-bucket invariant maintained by the pool operations: nonnegative
lower bound, count and sums. -/
def bucketInv (b : PoolBucket) : Prop :=
  0 ≤ b.lo ∧ 0 ≤ b.count ∧ 0 ≤ b.sumAmounts ∧ 0 ≤ b.sumAmountsSquared

/-- Pools whose bucket ranges are the standard ones. -/
def standardBounds (pool : DepositPoolStats) : Prop :=
  pool.buckets.map (fun b => (b.lo, b.hi)) = standardBucketBoundaries

/-- Z value (inputRef - k mu) / (sigma sqrt k) of the k loop (proof helper). -/
noncomputable def zVal (inputRef mu sigma : ℝ) (k : ℤ) : ℝ :=
  (inputRef - (k : ℝ) * mu) / (sigma * Real.sqrt (k : ℝ))

/-- Probability mass assigned to subset size k (proof helper): the pK of the
k loop in src/ts/src/index.ts line 243. -/
noncomputable def pKval (inputLo inputHi mu sigma : ℝ) (k : ℤ) : ℝ :=
  normalCdf (zVal inputHi mu sigma k) - normalCdf (zVal inputLo mu sigma k)

/-- Empty flat pool (flat variant createPool). -/
def flatCreatePool : FlatPoolStats :=
  { totalDeposits := 0, sumAmounts := 0, sumAmountsSquared := 0 }

/-- Concrete single-bucket pool used to refute the range claim of findMinDist:
two deposits 1199 and 1201 tracked by a bucket spanning [0, UNIT). -/
def c2Pool : DepositPoolStats :=
  { buckets := [{ lo := 0, hi := UNIT, count := 2, sumAmounts := 2400,
                  sumAmountsSquared := 2880002 }] }

/-- Concrete pool with a negative bucket count, a value the TypeScript
interface admits, used to refute the count-positivity reading of
selectBucket. -/
def c5Pool : DepositPoolStats :=
  { buckets := [{ lo := 0, hi := 10, count := -1, sumAmounts := 0,
                  sumAmountsSquared := 0 }] }

/-- Concrete single-bucket pool of 1000 statistical deposits with mean 1200
and variance 1, used on the score-table rounding claim. -/
def c9Pool : DepositPoolStats :=
  { buckets := [{ lo := 0, hi := UNIT, count := 1000, sumAmounts := 1200000,
                  sumAmountsSquared := 1440001000 }] }

/-- Two deposits 1199 and 1201 into the standard pool; their bucket-zero
statistics coincide with the flat statistics of the same deposits. Used both
on the bucketed-versus-flat equivalence claim and to refute it: every
arithmetic step at these statistics (mean 1200, mean square 1440001,
variance 1, sigma 1) is exact in IEEE doubles. -/
def w8Pool : DepositPoolStats := addDeposit (addDeposit createPool 1199) 1201

/-- Flat statistics of the same two deposits as w8Pool. -/
def w8Flat : FlatPoolStats :=
  flatAddDeposit (flatAddDeposit flatCreatePool 1199) 1201

/-- Twelve empty buckets with the standard overlapping boundaries, the tail
of every freshly created pool (proof helper). -/
def standardEmptyTail : List PoolBucket :=
  (List.range 12).map (fun i =>
    { lo := 2 ^ i * UNIT, hi := 2 ^ i * 16 * UNIT, count := 0,
      sumAmounts := 0, sumAmountsSquared := 0 })

/-! ### Analysis of the Abramowitz-Stegun approximation -/

theorem P5_eq_mul (t : ℝ) : P5 t = t * Q4 t := by
  unfold P5 Q4; ring

theorem Q4_nonneg {t : ℝ} (h0 : 0 ≤ t) (h1 : t ≤ 1) : 0 ≤ Q4 t := by
  unfold Q4 a1 a2 a3 a4 a5
  nlinarith [sq_nonneg (t - 1/8), sq_nonneg (t * t - t/2), sq_nonneg t,
    sq_nonneg (t*t - 1/4), mul_nonneg h0 h0, sq_nonneg (t - 1),
    mul_nonneg (mul_nonneg h0 h0) h0]

theorem Hpoly_nonneg {t : ℝ} (h0 : 0 ≤ t) (h1 : t ≤ 1) : 0 ≤ Hpoly t := by
  unfold Hpoly Q4 pAS a1 a2 a3 a4 a5
  nlinarith [sq_nonneg (t - 1/2), sq_nonneg (t*t - t), sq_nonneg (t*t - 1/2),
    sq_nonneg (t*t*t - t), mul_nonneg h0 h0, mul_nonneg (mul_nonneg h0 h0) h0,
    sq_nonneg (t*t*t - t*t), sq_nonneg (t - 1), mul_nonneg (sub_nonneg.2 h1) h0]

theorem pAS_pos : (0:ℝ) < pAS := by unfold pAS; norm_num

theorem one_add_pAS_mul_pos {x : ℝ} (hx : 0 ≤ x) : 0 < 1 + pAS * x := by
  have := pAS_pos; nlinarith

theorem hasDerivAt_P5 (t : ℝ) : HasDerivAt P5 (P5d t) t := by
  have hid : HasDerivAt (fun s : ℝ => s) 1 t := hasDerivAt_id t
  have h1 : HasDerivAt (fun s : ℝ => a5 * s + a4) a5 t := by
    simpa using (hid.const_mul a5).add_const a4
  have h2 : HasDerivAt (fun s : ℝ => (a5 * s + a4) * s + a3)
      (a5 * t + (a5 * t + a4)) t := by
    simpa using (h1.mul hid).add_const a3
  have h3 : HasDerivAt (fun s : ℝ => ((a5 * s + a4) * s + a3) * s + a2)
      ((a5 * t + (a5 * t + a4)) * t + ((a5 * t + a4) * t + a3)) t := by
    simpa using (h2.mul hid).add_const a2
  have h4 : HasDerivAt (fun s : ℝ => (((a5 * s + a4) * s + a3) * s + a2) * s + a1)
      (((a5 * t + (a5 * t + a4)) * t + ((a5 * t + a4) * t + a3)) * t
        + (((a5 * t + a4) * t + a3) * t + a2)) t := by
    simpa using (h3.mul hid).add_const a1
  have h5 := h4.mul hid
  unfold P5
  convert h5 using 1
  unfold P5d; ring

theorem hasDerivAt_Ebody {x : ℝ} (hx : 0 ≤ x) :
    HasDerivAt Ebody
      (P5d (1 / (1 + pAS * x)) * (-(pAS / (1 + pAS * x) ^ 2)) * Real.exp (-(x * x))
        + P5 (1 / (1 + pAS * x)) * (Real.exp (-(x * x)) * (-(x + x)))) x := by
  have hden : (1 + pAS * x) ≠ 0 := (one_add_pAS_mul_pos hx).ne.symm
  have hu : HasDerivAt (fun s : ℝ => 1 + pAS * s) pAS x := by
    simpa using ((hasDerivAt_id x).const_mul pAS).const_add 1
  have ht : HasDerivAt (fun s : ℝ => 1 / (1 + pAS * s))
      (-(pAS / (1 + pAS * x) ^ 2)) x := by
    have := hu.inv hden
    simpa [one_div, div_eq_mul_inv] using this
  have hP : HasDerivAt (fun s : ℝ => P5 (1 / (1 + pAS * s)))
      (P5d (1 / (1 + pAS * x)) * (-(pAS / (1 + pAS * x) ^ 2))) x :=
    (hasDerivAt_P5 _).comp x ht
  have hsq : HasDerivAt (fun s : ℝ => -(s * s)) (-(x + x)) x := by
    have := ((hasDerivAt_id x).mul (hasDerivAt_id x)).neg
    simpa using this
  have hexp : HasDerivAt (fun s : ℝ => Real.exp (-(s * s)))
      (Real.exp (-(x * x)) * (-(x + x))) x := by
    simpa using (Real.hasDerivAt_exp (-(x*x))).comp x hsq
  exact hP.mul hexp

theorem Ebody_deriv_nonpos {x : ℝ} (hx : 0 < x) :
    deriv Ebody x ≤ 0 := by
  have hx0 : (0:ℝ) ≤ x := hx.le
  rw [(hasDerivAt_Ebody hx0).deriv]
  have hden : (0:ℝ) < 1 + pAS * x := one_add_pAS_mul_pos hx0
  have ht0 : 0 < 1 / (1 + pAS * x) := by positivity
  have ht1 : 1 / (1 + pAS * x) ≤ 1 := by
    rw [div_le_one hden]
    nlinarith [pAS_pos]
  have hxt : pAS * (1 / (1 + pAS * x)) * x = 1 - 1 / (1 + pAS * x) := by
    field_simp
  have key : pAS * (1 / (1 + pAS * x)) *
        (pAS * (1 / (1 + pAS * x)) ^ 2 * P5d (1 / (1 + pAS * x))
          + (x + x) * P5 (1 / (1 + pAS * x)))
      = (1 / (1 + pAS * x)) * Hpoly (1 / (1 + pAS * x)) := by
    rw [P5_eq_mul]
    unfold Hpoly P5d
    linear_combination (2 * (1 / (1 + pAS * x)) * Q4 (1 / (1 + pAS * x))) * hxt
  have hH : 0 ≤ Hpoly (1 / (1 + pAS * x)) := Hpoly_nonneg ht0.le ht1
  have hB : 0 ≤ pAS * (1 / (1 + pAS * x)) ^ 2 * P5d (1 / (1 + pAS * x))
      + (x + x) * P5 (1 / (1 + pAS * x)) := by
    nlinarith [mul_pos pAS_pos ht0, mul_nonneg ht0.le hH]
  have hdiv : pAS / (1 + pAS * x) ^ 2 = pAS * (1 / (1 + pAS * x)) ^ 2 := by
    field_simp
  have hexp : (0:ℝ) < Real.exp (-(x * x)) := Real.exp_pos _
  have hrw : P5d (1 / (1 + pAS * x)) * (-(pAS / (1 + pAS * x) ^ 2)) * Real.exp (-(x * x))
        + P5 (1 / (1 + pAS * x)) * (Real.exp (-(x * x)) * (-(x + x)))
      = -((pAS * (1 / (1 + pAS * x)) ^ 2 * P5d (1 / (1 + pAS * x))
          + (x + x) * P5 (1 / (1 + pAS * x))) * Real.exp (-(x * x))) := by
    rw [hdiv]; ring
  rw [hrw]
  exact neg_nonpos.mpr (mul_nonneg hB hexp.le)

theorem Ebody_antitoneOn : AntitoneOn Ebody (Set.Ici (0:ℝ)) := by
  have hcont : ContinuousOn Ebody (Set.Ici (0:ℝ)) := by
    intro x hx
    exact ((hasDerivAt_Ebody hx).continuousAt).continuousWithinAt
  have hdiffon : DifferentiableOn ℝ Ebody (interior (Set.Ici (0:ℝ))) := by
    intro x hx
    rw [interior_Ici] at hx
    exact ((hasDerivAt_Ebody (le_of_lt hx)).differentiableAt).differentiableWithinAt
  refine antitoneOn_of_deriv_nonpos (convex_Ici 0) hcont hdiffon ?_
  intro x hx
  rw [interior_Ici] at hx
  exact Ebody_deriv_nonpos hx

theorem Ebody_nonneg {x : ℝ} (hx : 0 ≤ x) : 0 ≤ Ebody x := by
  unfold Ebody
  have hden : (0:ℝ) < 1 + pAS * x := one_add_pAS_mul_pos hx
  have ht0 : (0:ℝ) < 1 / (1 + pAS * x) := by positivity
  have ht1 : 1 / (1 + pAS * x) ≤ 1 := by
    rw [div_le_one hden]; nlinarith [pAS_pos]
  have hq := Q4_nonneg ht0.le ht1
  rw [P5_eq_mul]
  have he := Real.exp_pos (-(x*x))
  positivity

theorem Ebody_le_one {x : ℝ} (hx : 0 ≤ x) : Ebody x ≤ 1 := by
  have h0 : Ebody x ≤ Ebody 0 := Ebody_antitoneOn (by simp) (by simpa using hx) hx
  have : Ebody 0 ≤ 1 := by
    unfold Ebody P5 a1 a2 a3 a4 a5 pAS
    norm_num
  linarith

theorem normalCdf_of_neg {z : ℝ} (h1 : -8 ≤ z) (h2 : z < 0) :
    normalCdf z = Ebody (|z| / Real.sqrt 2) / 2 := by
  unfold normalCdf Ebody
  rw [if_neg (by linarith), if_neg (by linarith), if_pos h2]
  ring

theorem normalCdf_of_nonneg {z : ℝ} (h1 : 0 ≤ z) (h2 : z ≤ 8) :
    normalCdf z = 1 - Ebody (|z| / Real.sqrt 2) / 2 := by
  unfold normalCdf Ebody
  rw [if_neg (by linarith), if_neg (by linarith), if_neg (by linarith)]
  ring

theorem normalCdf_of_lt {z : ℝ} (h : z < -8) : normalCdf z = 0 := by
  unfold normalCdf; rw [if_pos h]

theorem normalCdf_of_gt {z : ℝ} (h : 8 < z) : normalCdf z = 1 := by
  unfold normalCdf; rw [if_neg (by linarith), if_pos h]

theorem absdiv_sqrt_two_nonneg (z : ℝ) : 0 ≤ |z| / Real.sqrt 2 :=
  div_nonneg (abs_nonneg z) (Real.sqrt_nonneg 2)

theorem normalCdf_nonneg (z : ℝ) : 0 ≤ normalCdf z := by
  rcases lt_or_le z (-8) with h | h
  · rw [normalCdf_of_lt h]
  · rcases lt_or_le (8:ℝ) z with h8 | h8
    · rw [normalCdf_of_gt h8]; norm_num
    · rcases lt_or_le z 0 with hz | hz
      · rw [normalCdf_of_neg h hz]
        have := Ebody_nonneg (absdiv_sqrt_two_nonneg z)
        linarith
      · rw [normalCdf_of_nonneg hz h8]
        have := Ebody_le_one (absdiv_sqrt_two_nonneg z)
        linarith

theorem normalCdf_le_one (z : ℝ) : normalCdf z ≤ 1 := by
  rcases lt_or_le z (-8) with h | h
  · rw [normalCdf_of_lt h]; norm_num
  · rcases lt_or_le (8:ℝ) z with h8 | h8
    · rw [normalCdf_of_gt h8]
    · rcases lt_or_le z 0 with hz | hz
      · rw [normalCdf_of_neg h hz]
        have := Ebody_le_one (absdiv_sqrt_two_nonneg z)
        linarith
      · rw [normalCdf_of_nonneg hz h8]
        have := Ebody_nonneg (absdiv_sqrt_two_nonneg z)
        linarith

theorem normalCdf_monotone : Monotone normalCdf := by
  intro z1 z2 h12
  have hs2 : (0:ℝ) < Real.sqrt 2 := Real.sqrt_pos.mpr (by norm_num)
  rcases lt_or_le z1 (-8) with h1 | h1
  · rw [normalCdf_of_lt h1]; exact normalCdf_nonneg z2
  · rcases lt_or_le (8:ℝ) z2 with h2 | h2
    · rw [normalCdf_of_gt h2]; exact normalCdf_le_one z1
    · have h1b : z1 ≤ 8 := le_trans h12 h2
      have h2b : -8 ≤ z2 := le_trans h1 h12
      rcases lt_or_le z1 0 with hz1 | hz1
      · rcases lt_or_le z2 0 with hz2 | hz2
        · rw [normalCdf_of_neg h1 hz1, normalCdf_of_neg h2b hz2]
          have hxle : |z2| / Real.sqrt 2 ≤ |z1| / Real.sqrt 2 := by
            rw [div_le_div_iff_of_pos_right hs2, abs_of_neg hz1, abs_of_neg hz2]
            linarith
          have := Ebody_antitoneOn (absdiv_sqrt_two_nonneg z2)
            (absdiv_sqrt_two_nonneg z1) hxle
          linarith
        · rw [normalCdf_of_neg h1 hz1, normalCdf_of_nonneg hz2 h2]
          have hl1 := Ebody_le_one (absdiv_sqrt_two_nonneg z1)
          have hl2 := Ebody_le_one (absdiv_sqrt_two_nonneg z2)
          linarith
      · have hz2 : (0:ℝ) ≤ z2 := le_trans hz1 h12
        rw [normalCdf_of_nonneg hz1 h1b, normalCdf_of_nonneg hz2 h2]
        have hxle : |z1| / Real.sqrt 2 ≤ |z2| / Real.sqrt 2 := by
          rw [div_le_div_iff_of_pos_right hs2, abs_of_nonneg hz1, abs_of_nonneg hz2]
          exact h12
        have := Ebody_antitoneOn (absdiv_sqrt_two_nonneg z1)
          (absdiv_sqrt_two_nonneg z2) hxle
        linarith

/-! ### List and arithmetic plumbing -/

theorem mem_intRange {lo hi k : ℤ} : k ∈ intRange lo hi ↔ lo ≤ k ∧ k ≤ hi := by
  unfold intRange
  constructor
  · intro hk
    rw [List.mem_map] at hk
    obtain ⟨i, hi2, hk⟩ := hk
    rw [List.mem_range] at hi2
    omega
  · intro h12
    rw [List.mem_map]
    refine ⟨(k - lo).toNat, ?_, ?_⟩
    · rw [List.mem_range]; omega
    · omega

theorem le_foldl_max (ts : List ℝ) : ∀ t a : ℝ, a ∈ t :: ts → a ≤ ts.foldl max t := by
  induction ts with
  | nil =>
    intro t a ha
    simp only [List.mem_singleton] at ha
    simp [ha]
  | cons b l ih =>
    intro t a ha
    simp only [List.foldl_cons]
    have hmb : max t b ≤ l.foldl max (max t b) :=
      ih (max t b) (max t b) (List.mem_cons_self _ _)
    rcases List.mem_cons.mp ha with h | h
    · exact le_trans (h ▸ le_max_left t b) hmb
    · rcases List.mem_cons.mp h with h2 | h2
      · exact le_trans (h2 ▸ le_max_right t b) hmb
      · exact ih (max t b) a (List.mem_cons_of_mem _ h2)

theorem foldl_max_mem (ts : List ℝ) : ∀ t : ℝ, ts.foldl max t ∈ t :: ts := by
  induction ts with
  | nil => simp
  | cons b l ih =>
    intro t
    simp only [List.foldl_cons]
    rcases List.mem_cons.mp (ih (max t b)) with h | h
    · rcases max_choice t b with hc | hc
      · rw [h, hc]; exact List.mem_cons_self _ _
      · rw [h, hc]; exact List.mem_cons_of_mem _ (List.mem_cons_self _ _)
    · exact List.mem_cons_of_mem _ (List.mem_cons_of_mem _ h)

theorem sum_map_filterMap {α : Type} (l : List α) (f : α → Option ℝ) (g : ℝ → ℝ) :
    ((l.filterMap f).map g).sum = (l.map (fun x => ((f x).map g).getD 0)).sum := by
  induction l with
  | nil => simp
  | cons x l ih =>
    rw [List.filterMap_cons]
    cases h : f x with
    | none => simp [h, ih]
    | some v => simp [h, ih]

theorem sum_rpow_pos (t : ℝ) (ts : List ℝ) :
    0 < ((t :: ts).map (fun lt => (2 : ℝ) ^ lt)).sum := by
  apply List.sum_pos
  · intro x hx
    rw [List.mem_map] at hx
    obtain ⟨lt, _, rfl⟩ := hx
    exact Real.rpow_pos_of_pos (by norm_num) lt
  · simp

theorem logSumExp2_eq (t : ℝ) (ts : List ℝ) :
    logSumExp2 t ts = Real.logb 2 (((t :: ts).map (fun lt => (2 : ℝ) ^ lt)).sum) := by
  show ts.foldl max t
      + Real.logb 2 (((t :: ts).map (fun lt => (2 : ℝ) ^ (lt - ts.foldl max t))).sum)
    = Real.logb 2 (((t :: ts).map (fun lt => (2 : ℝ) ^ lt)).sum)
  have hmap : ((t :: ts).map (fun lt => (2 : ℝ) ^ (lt - ts.foldl max t)))
      = ((t :: ts).map (fun lt => (2 : ℝ) ^ lt * ((2 : ℝ) ^ ts.foldl max t)⁻¹)) := by
    apply List.map_congr_left
    intro lt _
    rw [Real.rpow_sub (by norm_num), div_eq_mul_inv]
  rw [hmap, List.sum_map_mul_right]
  have hS : 0 < ((t :: ts).map (fun lt => (2 : ℝ) ^ lt)).sum := sum_rpow_pos t ts
  have hM : (0:ℝ) < (2 : ℝ) ^ ts.foldl max t :=
    Real.rpow_pos_of_pos (by norm_num) _
  rw [Real.logb_mul hS.ne.symm (inv_ne_zero hM.ne.symm), Real.logb_inv,
    Real.logb_rpow (by norm_num : (0:ℝ) < 2) (by norm_num : (2:ℝ) ≠ 1)]
  ring

/-! ### Decimal string round trip -/

theorem digitChar_toNat_sub {d : ℕ} (h : d < 10) : (Nat.digitChar d).toNat - 48 = d := by
  interval_cases d <;> rfl

theorem digitChar_ne_dash {d : ℕ} (h : d < 10) : Nat.digitChar d ≠ '-' := by
  interval_cases d <;> decide

theorem decStringToInt_mk (c : Char) (cs : List Char) :
    decStringToInt ⟨c :: cs⟩
      = if c = '-' then -(decDigitsVal cs : ℤ) else (decDigitsVal (c :: cs) : ℤ) := rfl

theorem decStringToInt_natToDecString (n : ℕ) :
    decStringToInt (natToDecString n) = (n : ℤ) := by
  unfold natToDecString
  by_cases h : n = 0
  · subst h; decide
  · rw [if_neg h]
    have hne : Nat.digits 10 n ≠ [] := Nat.digits_ne_nil_iff_ne_zero.mpr h
    have hne2 : (Nat.digits 10 n).reverse.map Nat.digitChar ≠ [] := by
      simp [hne]
    obtain ⟨c, cs, hcs⟩ := List.exists_cons_of_ne_nil hne2
    have hlt : ∀ d ∈ (Nat.digits 10 n).reverse, d < 10 := by
      intro d hd
      exact Nat.digits_lt_base (by norm_num) (List.mem_reverse.mp hd)
    have hc : c ≠ '-' := by
      have hcmem : c ∈ (Nat.digits 10 n).reverse.map Nat.digitChar := by
        rw [hcs]; exact List.mem_cons_self _ _
      rw [List.mem_map] at hcmem
      obtain ⟨d, hd, rfl⟩ := hcmem
      exact digitChar_ne_dash (hlt d hd)
    show decStringToInt ⟨(Nat.digits 10 n).reverse.map Nat.digitChar⟩ = (n : ℤ)
    rw [congrArg String.mk hcs, decStringToInt_mk, if_neg hc, ← hcs]
    unfold decDigitsVal
    rw [List.map_map]
    have hmapid : ((Nat.digits 10 n).reverse.map
        ((fun c : Char => c.toNat - 48) ∘ Nat.digitChar)) = (Nat.digits 10 n).reverse := by
      rw [List.map_congr_left, List.map_id]
      intro d hd
      exact digitChar_toNat_sub (hlt d hd)
    rw [hmapid, List.reverse_reverse, Nat.ofDigits_digits]

theorem decStringToInt_intToDecString {n : ℤ} (h : 0 ≤ n) :
    decStringToInt (intToDecString n) = n := by
  unfold intToDecString
  rw [if_neg (not_lt.mpr h), decStringToInt_natToDecString, Int.toNat_of_nonneg h]

/-! ### Specification of selectBucket -/

theorem selectBucketStep_good {target : ℝ} {st : Option (PoolBucket × ℝ)} {b : PoolBucket}
    (hst : ∀ p, st = some p → p.2 = (p.1.hi : ℝ) - target ∧ qualifies target p.1) :
    ∀ p, selectBucketStep target st b = some p →
      p.2 = (p.1.hi : ℝ) - target ∧ qualifies target p.1 := by
  intro p hp
  unfold selectBucketStep at hp
  split_ifs at hp with h1 h2
  · exact hst p hp
  · cases st with
    | none =>
      cases hp
      exact ⟨rfl, h1, h2⟩
    | some best =>
      simp only at hp
      split_ifs at hp with h3
      · cases hp
        exact ⟨rfl, h1, h2⟩
      · exact hst p hp
  · exact hst p hp

theorem selectBucketStep_none_iff {target : ℝ} {st : Option (PoolBucket × ℝ)}
    {b : PoolBucket} :
    selectBucketStep target st b = none ↔ st = none ∧ ¬ qualifies target b := by
  unfold selectBucketStep qualifies
  split_ifs with h1 h2
  · simp [h1]
  · cases st with
    | none => simp [h1, h2]
    | some best =>
      simp only
      split_ifs with h3 <;> simp
  · cases st with
    | none => simp [h1, h2]
    | some best => simp [h1, h2]

theorem selectBucketStep_qual {target : ℝ} {st : Option (PoolBucket × ℝ)} {b : PoolBucket}
    (hq : qualifies target b) :
    ∃ q, selectBucketStep target st b = some q ∧ q.2 ≤ (b.hi : ℝ) - target := by
  unfold selectBucketStep
  rw [if_neg hq.1, if_pos ⟨hq.2.1, hq.2.2⟩]
  cases st with
  | none => exact ⟨(b, (b.hi : ℝ) - target), rfl, le_refl _⟩
  | some best =>
    simp only
    split_ifs with h3
    · exact ⟨(b, (b.hi : ℝ) - target), rfl, le_refl _⟩
    · exact ⟨best, rfl, not_lt.mp h3⟩

theorem selectBucketStep_mono {target : ℝ} {st : Option (PoolBucket × ℝ)} {b : PoolBucket} :
    ∀ q, st = some q → ∃ q2, selectBucketStep target st b = some q2 ∧ q2.2 ≤ q.2 := by
  intro q hq
  subst hq
  unfold selectBucketStep
  split_ifs with h1 h2
  · exact ⟨q, rfl, le_refl _⟩
  · simp only
    split_ifs with h3
    · exact ⟨(b, (b.hi : ℝ) - target), rfl, le_of_lt h3⟩
    · exact ⟨q, rfl, le_refl _⟩
  · exact ⟨q, rfl, le_refl _⟩

theorem selectFold_spec (target : ℝ) :
    ∀ (l : List PoolBucket) (st : Option (PoolBucket × ℝ)),
      (∀ p, st = some p → p.2 = (p.1.hi : ℝ) - target ∧ qualifies target p.1) →
      ((l.foldl (selectBucketStep target) st = none
          ↔ st = none ∧ ∀ b ∈ l, ¬ qualifies target b)
        ∧ ∀ p, l.foldl (selectBucketStep target) st = some p →
            (p.2 = (p.1.hi : ℝ) - target ∧ qualifies target p.1)
            ∧ (st = some p ∨ p.1 ∈ l)
            ∧ (∀ b ∈ l, qualifies target b → p.2 ≤ (b.hi : ℝ) - target)
            ∧ (∀ q, st = some q → p.2 ≤ q.2)) := by
  intro l
  induction l with
  | nil =>
    intro st hst
    refine ⟨by simp, ?_⟩
    intro p hp
    have hp2 : st = some p := hp
    refine ⟨hst p hp2, Or.inl hp2, by simp, ?_⟩
    intro q hq
    rw [hp2] at hq
    cases hq
    exact le_refl _
  | cons b l ih =>
    intro st hst
    have hst2 : ∀ p, selectBucketStep target st b = some p →
        p.2 = (p.1.hi : ℝ) - target ∧ qualifies target p.1 :=
      selectBucketStep_good hst
    obtain ⟨ihnone, ihsome⟩ := ih (selectBucketStep target st b) hst2
    constructor
    · rw [List.foldl_cons, ihnone, selectBucketStep_none_iff]
      constructor
      · rintro ⟨⟨h1, h2⟩, h3⟩
        exact ⟨h1, by
          intro x hx
          rcases List.mem_cons.mp hx with rfl | hx
          · exact h2
          · exact h3 x hx⟩
      · rintro ⟨h1, h2⟩
        exact ⟨⟨h1, h2 b (List.mem_cons_self _ _)⟩,
          fun x hx => h2 x (List.mem_cons_of_mem _ hx)⟩
    · intro p hp
      rw [List.foldl_cons] at hp
      obtain ⟨hgood, hfrom, hminl, hmono⟩ := ihsome p hp
      refine ⟨hgood, ?_, ?_, ?_⟩
      · rcases hfrom with hs | hmem
        · unfold selectBucketStep at hs
          split_ifs at hs with h1 h2
          · exact Or.inl hs
          · cases st with
            | none =>
              cases hs
              exact Or.inr (List.mem_cons_self _ _)
            | some best =>
              simp only at hs
              split_ifs at hs with h3
              · cases hs
                exact Or.inr (List.mem_cons_self _ _)
              · exact Or.inl hs
          · exact Or.inl hs
        · exact Or.inr (List.mem_cons_of_mem _ hmem)
      · intro x hx hqx
        rcases List.mem_cons.mp hx with rfl | hx
        · obtain ⟨q0, hq0, hq0le⟩ := @selectBucketStep_qual target st _ hqx
          exact le_trans (hmono q0 hq0) hq0le
        · exact hminl x hx hqx
      · intro q hq
        obtain ⟨q2, hq2, hq2le⟩ := @selectBucketStep_mono target st b q hq
        exact le_trans (hmono q2 hq2) hq2le

theorem selectBucket_none_iff (pool : DepositPoolStats) (target : ℝ) :
    selectBucket pool target = none ↔ ∀ b ∈ pool.buckets, ¬ qualifies target b := by
  unfold selectBucket
  rw [Option.map_eq_none']
  have h := (selectFold_spec target pool.buckets none (by simp)).1
  rw [h]
  simp

theorem selectBucket_some_spec {pool : DepositPoolStats} {target : ℝ} {b : PoolBucket}
    (h : selectBucket pool target = some b) :
    b ∈ pool.buckets ∧ qualifies target b
      ∧ ∀ b2 ∈ pool.buckets, qualifies target b2 →
          (b.hi : ℝ) - target ≤ (b2.hi : ℝ) - target := by
  unfold selectBucket at h
  rw [Option.map_eq_some'] at h
  obtain ⟨p, hp, rfl⟩ := h
  obtain ⟨hgood, hfrom, hminl, _⟩ :=
    (selectFold_spec target pool.buckets none (by simp)).2 p hp
  refine ⟨?_, hgood.2, ?_⟩
  · rcases hfrom with hs | hmem
    · cases hs
    · exact hmem
  · intro b2 hb2 hq2
    have := hminl b2 hb2 hq2
    rw [hgood.1] at this
    exact this

/-! ### Pool invariants -/

theorem bucketInv_addDeposit {pool : DepositPoolStats} {amount : ℤ}
    (h : ∀ b ∈ pool.buckets, bucketInv b) :
    ∀ b ∈ (addDeposit pool amount).buckets, bucketInv b := by
  intro b hb
  unfold addDeposit at hb
  simp only [List.mem_map] at hb
  obtain ⟨b0, hb0, rfl⟩ := hb
  obtain ⟨hlo, hc, hs, hs2⟩ := h b0 hb0
  by_cases hmem : b0.lo ≤ (amount : ℚ) ∧ (amount : ℚ) < b0.hi
  · rw [if_pos hmem]
    have hA : (0 : ℚ) ≤ (amount : ℚ) := le_trans hlo hmem.1
    have hA2 : (0 : ℤ) ≤ amount := by exact_mod_cast hA
    have hsq : (0 : ℤ) ≤ amount * amount := mul_self_nonneg amount
    exact ⟨hlo, show (0:ℤ) ≤ b0.count + 1 by omega,
      show (0:ℤ) ≤ b0.sumAmounts + amount by omega,
      show (0:ℤ) ≤ b0.sumAmountsSquared + amount * amount by omega⟩
  · rw [if_neg hmem]
    exact ⟨hlo, hc, hs, hs2⟩

theorem bucketInv_removeDeposit {pool : DepositPoolStats} {amount : ℤ}
    (h : ∀ b ∈ pool.buckets, bucketInv b) :
    ∀ b ∈ (removeDeposit pool amount).buckets, bucketInv b := by
  intro b hb
  unfold removeDeposit at hb
  simp only [List.mem_map] at hb
  obtain ⟨b0, hb0, rfl⟩ := hb
  obtain ⟨hlo, hc, hs, hs2⟩ := h b0 hb0
  by_cases hmem : b0.lo ≤ (amount : ℚ) ∧ (amount : ℚ) < b0.hi
  · rw [if_pos hmem]
    refine ⟨hlo, le_max_left _ _, ?_, ?_⟩
    · show (0:ℤ) ≤ if b0.sumAmounts - amount < 0 then 0 else b0.sumAmounts - amount
      split_ifs <;> omega
    · show (0:ℤ) ≤ if b0.sumAmountsSquared - amount * amount < 0 then 0
          else b0.sumAmountsSquared - amount * amount
      split_ifs <;> omega
  · rw [if_neg hmem]
    exact ⟨hlo, hc, hs, hs2⟩

theorem bucketInv_applyOps :
    ∀ (ops : List PoolOp) (pool : DepositPoolStats),
      (∀ b ∈ pool.buckets, bucketInv b) →
      ∀ b ∈ (applyOps pool ops).buckets, bucketInv b := by
  intro ops
  induction ops with
  | nil => intro pool h; exact h
  | cons op ops ih =>
    intro pool h
    show ∀ b ∈ (applyOps (applyOp pool op) ops).buckets, bucketInv b
    apply ih
    cases op with
    | add a => exact bucketInv_addDeposit h
    | remove a => exact bucketInv_removeDeposit h

theorem standardBucketBoundaries_eq : standardBucketBoundaries =
    [(0, UNIT), (UNIT, 16 * UNIT), (2 * UNIT, 32 * UNIT), (4 * UNIT, 64 * UNIT),
     (8 * UNIT, 128 * UNIT), (16 * UNIT, 256 * UNIT), (32 * UNIT, 512 * UNIT),
     (64 * UNIT, 1024 * UNIT), (128 * UNIT, 2048 * UNIT), (256 * UNIT, 4096 * UNIT),
     (512 * UNIT, 8192 * UNIT), (1024 * UNIT, 16384 * UNIT),
     (2048 * UNIT, 32768 * UNIT)] := by
  unfold standardBucketBoundaries
  norm_num [List.range_succ]

theorem standardBucketBoundaries_lo_nonneg :
    ∀ q ∈ standardBucketBoundaries, 0 ≤ q.1 := by
  rw [standardBucketBoundaries_eq]
  intro q hq
  fin_cases hq <;> norm_num [UNIT]

theorem standardBucketBoundaries_hi_le :
    ∀ q ∈ standardBucketBoundaries, q.2 ≤ 32768 * UNIT := by
  rw [standardBucketBoundaries_eq]
  intro q hq
  fin_cases hq <;> norm_num [UNIT]

theorem bucketInv_createPool : ∀ b ∈ createPool.buckets, bucketInv b := by
  intro b hb
  unfold createPool at hb
  simp only [List.mem_map] at hb
  obtain ⟨pr, hpr, rfl⟩ := hb
  have hlo : 0 ≤ pr.1 := standardBucketBoundaries_lo_nonneg pr hpr
  exact ⟨hlo, le_refl 0, le_refl 0, le_refl 0⟩

/-! ### Specification of the binary search loop -/

theorem searchLoop_spec (score : ℤ → ℝ) (target : ℝ) :
    ∀ (N : ℕ) (lo hi : ℤ), (hi - lo).toNat ≤ N → lo < hi →
      score lo < target → target ≤ score hi →
      lo < searchLoop score target lo hi ∧ searchLoop score target lo hi ≤ hi ∧
      target ≤ score (searchLoop score target lo hi) ∧
      score (searchLoop score target lo hi - 1) < target := by
  intro N
  induction N with
  | zero =>
    intro lo hi hN hlt
    omega
  | succ n ih =>
    intro lo hi hN hlt hlo hhi
    rw [searchLoop]
    by_cases hgap : 1 < hi - lo
    · rw [dif_pos hgap]
      have hfd := Int.fdiv_eq_ediv (lo + hi) (by norm_num : (0:ℤ) ≤ 2)
      have hmid1 : lo < Int.fdiv (lo + hi) 2 := by rw [hfd]; omega
      have hmid2 : Int.fdiv (lo + hi) 2 < hi := by rw [hfd]; omega
      by_cases hs : target ≤ score (Int.fdiv (lo + hi) 2)
      · rw [if_pos hs]
        have hrec := ih lo (Int.fdiv (lo + hi) 2) (by omega) hmid1 hlo hs
        exact ⟨hrec.1, le_trans hrec.2.1 hmid2.le, hrec.2.2⟩
      · rw [if_neg hs]
        push_neg at hs
        have hrec := ih (Int.fdiv (lo + hi) 2) hi (by omega) hmid2 hs hhi
        exact ⟨lt_trans hmid1 hrec.1, hrec.2.1, hrec.2.2⟩
    · rw [dif_neg hgap]
      refine ⟨hlt, le_refl _, hhi, ?_⟩
      have hone : hi - 1 = lo := by omega
      rw [hone]
      exact hlo

/-! ### Structure of the k loop -/

theorem kLogTerm_eq (inputLo inputHi mu sigma : ℝ) (D k : ℤ) :
    kLogTerm inputLo inputHi mu sigma D k
      = if pKval inputLo inputHi mu sigma k ≤ 0 then none
        else some (log2Binomial D k + Real.logb 2 (pKval inputLo inputHi mu sigma k)) := rfl

theorem pKval_mono {inputLo mu sigma : ℝ} {k : ℤ} {hA hB : ℝ}
    (hs : 0 ≤ sigma) (h : hA ≤ hB) :
    pKval inputLo hA mu sigma k ≤ pKval inputLo hB mu sigma k := by
  unfold pKval zVal
  have hstd : 0 ≤ sigma * Real.sqrt (k : ℝ) := mul_nonneg hs (Real.sqrt_nonneg _)
  rcases eq_or_lt_of_le hstd with hz | hz
  · rw [← hz, div_zero, div_zero, div_zero]
  · have hdiv : (hA - (k : ℝ) * mu) / (sigma * Real.sqrt (k : ℝ))
        ≤ (hB - (k : ℝ) * mu) / (sigma * Real.sqrt (k : ℝ)) := by
      rw [div_le_div_iff_of_pos_right hz]
      linarith
    have := normalCdf_monotone hdiv
    linarith

theorem pKval_nonpos {inputLo inputHi mu sigma : ℝ} {k : ℤ}
    (hs : 0 ≤ sigma) (h : inputHi ≤ inputLo) :
    pKval inputLo inputHi mu sigma k ≤ 0 := by
  unfold pKval zVal
  have hstd : 0 ≤ sigma * Real.sqrt (k : ℝ) := mul_nonneg hs (Real.sqrt_nonneg _)
  rcases eq_or_lt_of_le hstd with hz | hz
  · rw [← hz, div_zero, div_zero]
    simp
  · have hdiv : (inputHi - (k : ℝ) * mu) / (sigma * Real.sqrt (k : ℝ))
        ≤ (inputLo - (k : ℝ) * mu) / (sigma * Real.sqrt (k : ℝ)) := by
      rw [div_le_div_iff_of_pos_right hz]
      linarith
    have := normalCdf_monotone hdiv
    linarith

theorem termWeight_eq (inputLo inputHi mu sigma : ℝ) (D k : ℤ) :
    termWeight inputLo inputHi mu sigma D k
      = if pKval inputLo inputHi mu sigma k ≤ 0 then 0
        else (2 : ℝ) ^ log2Binomial D k * pKval inputLo inputHi mu sigma k := by
  unfold termWeight
  rw [kLogTerm_eq]
  split_ifs with h
  · rfl
  · push_neg at h
    show (2 : ℝ) ^ (log2Binomial D k + Real.logb 2 (pKval inputLo inputHi mu sigma k))
      = (2 : ℝ) ^ log2Binomial D k * pKval inputLo inputHi mu sigma k
    rw [Real.rpow_add (by norm_num : (0:ℝ) < 2),
      Real.rpow_logb (by norm_num) (by norm_num) h]

theorem termWeight_nonneg (inputLo inputHi mu sigma : ℝ) (D k : ℤ) :
    0 ≤ termWeight inputLo inputHi mu sigma D k := by
  rw [termWeight_eq]
  split_ifs with h
  · exact le_refl 0
  · push_neg at h
    exact le_of_lt (mul_pos (Real.rpow_pos_of_pos (by norm_num) _) h)

theorem termWeight_mono {inputLo mu sigma : ℝ} {D k : ℤ} {hA hB : ℝ}
    (hs : 0 ≤ sigma) (h : hA ≤ hB) :
    termWeight inputLo hA mu sigma D k ≤ termWeight inputLo hB mu sigma D k := by
  have hpk := @pKval_mono inputLo mu sigma k hA hB hs h
  rw [termWeight_eq, termWeight_eq]
  split_ifs with h1 h2 h2
  · exact le_refl 0
  · push_neg at h2
    exact le_of_lt (mul_pos (Real.rpow_pos_of_pos (by norm_num) _) h2)
  · push_neg at h1
    exact absurd (lt_of_lt_of_le h1 hpk) (not_lt.mpr h2)
  · exact mul_le_mul_of_nonneg_left hpk (Real.rpow_pos_of_pos (by norm_num) _).le

theorem sum_weights_eq (ks : List ℤ) (inputLo inputHi mu sigma : ℝ) (D : ℤ) :
    ((ks.filterMap (kLogTerm inputLo inputHi mu sigma D)).map
        (fun lt => (2 : ℝ) ^ lt)).sum
      = (ks.map (termWeight inputLo inputHi mu sigma D)).sum :=
  sum_map_filterMap ks (kLogTerm inputLo inputHi mu sigma D) (fun lt => (2 : ℝ) ^ lt)

theorem scoreFromBucket_eq (inputLo inputHi : ℝ) (b : PoolBucket) (kMin kMax : ℤ) :
    scoreFromBucket inputLo inputHi b kMin kMax
      = if b.count = 0 then 0
        else if bucketSigma b = 0 then 0
        else if min kMax b.count < kMin then 0
        else if ((intRange kMin (min kMax b.count)).map
            (termWeight inputLo inputHi (bucketMu b) (bucketSigma b) b.count)).sum ≤ 0
          then 0
        else max 0 (Real.logb 2 (((intRange kMin (min kMax b.count)).map
            (termWeight inputLo inputHi (bucketMu b) (bucketSigma b) b.count)).sum)) := by
  unfold scoreFromBucket
  by_cases h1 : b.count = 0
  · rw [if_pos h1, if_pos h1]
  rw [if_neg h1, if_neg h1]
  by_cases h2 : bucketSigma b = 0
  · rw [if_pos h2, if_pos h2]
  rw [if_neg h2, if_neg h2]
  by_cases h3 : min kMax b.count < kMin
  · rw [if_pos h3, if_pos h3]
  rw [if_neg h3, if_neg h3]
  cases hfm : (intRange kMin (min kMax b.count)).filterMap
      (kLogTerm inputLo inputHi (bucketMu b) (bucketSigma b) b.count) with
  | nil =>
    have hsum : ((intRange kMin (min kMax b.count)).map
        (termWeight inputLo inputHi (bucketMu b) (bucketSigma b) b.count)).sum = 0 := by
      rw [← sum_weights_eq, hfm]
      simp
    rw [hsum]
    norm_num
  | cons t ts =>
    have hsum : ((intRange kMin (min kMax b.count)).map
        (termWeight inputLo inputHi (bucketMu b) (bucketSigma b) b.count)).sum
        = (((t :: ts).map (fun lt => (2 : ℝ) ^ lt)).sum) := by
      rw [← sum_weights_eq, hfm]
    have hpos := sum_rpow_pos t ts
    rw [hsum, if_neg (by linarith)]
    show max 0 (logSumExp2 t ts)
      = max 0 (Real.logb 2 (((t :: ts).map (fun lt => (2 : ℝ) ^ lt)).sum))
    rw [logSumExp2_eq]

theorem scoreFromBucket_nonneg (inputLo inputHi : ℝ) (b : PoolBucket) (kMin kMax : ℤ) :
    0 ≤ scoreFromBucket inputLo inputHi b kMin kMax := by
  rw [scoreFromBucket_eq]
  split_ifs <;> simp

theorem scoreFromBucket_mono {inputLo hA hB : ℝ} {b : PoolBucket} {kMin kMax : ℤ}
    (h : hA ≤ hB) :
    scoreFromBucket inputLo hA b kMin kMax ≤ scoreFromBucket inputLo hB b kMin kMax := by
  have hs : 0 ≤ bucketSigma b := Real.sqrt_nonneg _
  have hW : ((intRange kMin (min kMax b.count)).map
        (termWeight inputLo hA (bucketMu b) (bucketSigma b) b.count)).sum
      ≤ ((intRange kMin (min kMax b.count)).map
        (termWeight inputLo hB (bucketMu b) (bucketSigma b) b.count)).sum := by
    apply List.sum_le_sum
    intro k _
    exact termWeight_mono hs h
  rw [scoreFromBucket_eq, scoreFromBucket_eq]
  by_cases h1 : b.count = 0
  · rw [if_pos h1, if_pos h1]
  rw [if_neg h1, if_neg h1]
  by_cases h2 : bucketSigma b = 0
  · rw [if_pos h2, if_pos h2]
  rw [if_neg h2, if_neg h2]
  by_cases h3 : min kMax b.count < kMin
  · rw [if_pos h3, if_pos h3]
  rw [if_neg h3, if_neg h3]
  by_cases hW1 : ((intRange kMin (min kMax b.count)).map
      (termWeight inputLo hA (bucketMu b) (bucketSigma b) b.count)).sum ≤ 0
  · rw [if_pos hW1]
    split_ifs <;> simp
  · rw [if_neg hW1, if_neg (by linarith)]
    push_neg at hW1
    exact max_le_max (le_refl 0)
      (Real.logb_le_logb_of_le (by norm_num) hW1 hW)

theorem scoreFromBucket_eq_zero {inputLo inputHi : ℝ} {b : PoolBucket} {kMin kMax : ℤ}
    (h : inputHi ≤ inputLo) :
    scoreFromBucket inputLo inputHi b kMin kMax = 0 := by
  have hs : 0 ≤ bucketSigma b := Real.sqrt_nonneg _
  have hW : ((intRange kMin (min kMax b.count)).map
      (termWeight inputLo inputHi (bucketMu b) (bucketSigma b) b.count)).sum = 0 := by
    apply List.sum_eq_zero
    intro x hx
    rw [List.mem_map] at hx
    obtain ⟨k, _, rfl⟩ := hx
    rw [termWeight_eq, if_pos (pKval_nonpos hs h)]
  rw [scoreFromBucket_eq]
  split_ifs with h1 h2 h3 h4
  · rfl
  · rfl
  · rfl
  · rfl
  · rw [hW] at h4
    exact absurd (le_refl (0:ℝ)) h4

theorem privacyScore_eq (outputAmount dist : ℝ) (pool : DepositPoolStats)
    (feeBps kMin kMax : ℤ) :
    privacyScore outputAmount dist pool feeBps kMin kMax
      = match selectBucket pool (outputAmount * feeMultiplier feeBps) with
        | none => 0
        | some b => scoreFromBucket (outputAmount * feeMultiplier feeBps)
            ((outputAmount + dist) * feeMultiplier feeBps) b kMin kMax := rfl

theorem privacyScore_nonneg (outputAmount dist : ℝ) (pool : DepositPoolStats)
    (feeBps kMin kMax : ℤ) :
    0 ≤ privacyScore outputAmount dist pool feeBps kMin kMax := by
  rw [privacyScore_eq]
  cases selectBucket pool (outputAmount * feeMultiplier feeBps) with
  | none => exact le_refl 0
  | some b => exact scoreFromBucket_nonneg _ _ _ _ _

theorem privacyScore_mono_dist (outputAmount : ℝ) (pool : DepositPoolStats)
    (feeBps kMin kMax : ℤ) {d1 d2 : ℝ} (h0 : 0 ≤ d1) (h12 : d1 ≤ d2) :
    privacyScore outputAmount d1 pool feeBps kMin kMax
      ≤ privacyScore outputAmount d2 pool feeBps kMin kMax := by
  rw [privacyScore_eq, privacyScore_eq]
  cases selectBucket pool (outputAmount * feeMultiplier feeBps) with
  | none => exact le_refl 0
  | some b =>
    show scoreFromBucket (outputAmount * feeMultiplier feeBps)
        ((outputAmount + d1) * feeMultiplier feeBps) b kMin kMax
      ≤ scoreFromBucket (outputAmount * feeMultiplier feeBps)
        ((outputAmount + d2) * feeMultiplier feeBps) b kMin kMax
    rcases le_or_lt 0 (feeMultiplier feeBps) with hfm | hfm
    · exact scoreFromBucket_mono
        (mul_le_mul_of_nonneg_right (by linarith) hfm)
    · rw [scoreFromBucket_eq_zero (by nlinarith),
        scoreFromBucket_eq_zero (by nlinarith)]

theorem selectBucket_createPool (target : ℝ) :
    selectBucket createPool target = none := by
  rw [selectBucket_none_iff]
  intro b hb
  unfold createPool at hb
  simp only [List.mem_map] at hb
  obtain ⟨pr, _, rfl⟩ := hb
  intro hq
  exact hq.1 rfl

theorem privacyScore_createPool (outputAmount dist : ℝ) (feeBps kMin kMax : ℤ) :
    privacyScore outputAmount dist createPool feeBps kMin kMax = 0 := by
  rw [privacyScore_eq, selectBucket_createPool]

/-! ### Concrete evaluations -/


theorem logSumExp2_singleton (t : ℝ) : logSumExp2 t [] = t := by
  unfold logSumExp2
  simp [Real.rpow_zero]

theorem intRange_self (k : ℤ) : intRange k k = [k] := by
  unfold intRange
  rw [show k + 1 - k = 1 by ring]
  norm_num [List.range_succ]

theorem log2Binomial_one {n : ℤ} (hn : 2 ≤ n) :
    log2Binomial n 1 = Real.logb 2 (n : ℝ) := by
  unfold log2Binomial
  rw [if_neg (by omega), if_neg (by omega), show min 1 (n - 1) = 1 by omega]
  show ((List.range 1).map
    (fun i : ℕ => Real.logb 2 ((n : ℝ) - i) - Real.logb 2 ((i : ℝ) + 1))).sum = _
  simp [List.range_succ]

theorem log2Binomial_three_two : log2Binomial 3 2 = Real.logb 2 3 := by
  unfold log2Binomial
  rw [if_neg (by omega), if_neg (by omega), show min 2 (3 - 2 : ℤ) = 1 by omega]
  show ((List.range 1).map
    (fun i : ℕ => Real.logb 2 ((3 : ℝ) - i) - Real.logb 2 ((i : ℝ) + 1))).sum = _
  simp [List.range_succ]

theorem selectBucket_singleton {b : PoolBucket} {t : ℝ} (h : qualifies t b) :
    selectBucket ⟨[b]⟩ t = some b := by
  unfold selectBucket selectBucketStep
  simp only [List.foldl_cons, List.foldl_nil]
  rw [if_neg h.1, if_pos ⟨h.2.1, h.2.2⟩]
  rfl

theorem feeMultiplier_zero : feeMultiplier 0 = 1 := by
  unfold feeMultiplier; norm_num

theorem feeMultiplier_twenty : feeMultiplier 20000 = -1 := by
  unfold feeMultiplier; norm_num

theorem c2_bucketMu :
    bucketMu { lo := 0, hi := UNIT, count := 2, sumAmounts := 2400,
               sumAmountsSquared := 2880002 } = 1200 := by
  unfold bucketMu; norm_num

theorem c2_bucketSigma :
    bucketSigma { lo := 0, hi := UNIT, count := 2, sumAmounts := 2400,
                  sumAmountsSquared := 2880002 } = 1 := by
  unfold bucketSigma bucketMeanSq bucketMu
  norm_num

theorem c2_selectBucket : selectBucket c2Pool 1000 = some
    { lo := 0, hi := UNIT, count := 2, sumAmounts := 2400,
      sumAmountsSquared := 2880002 } := by
  apply selectBucket_singleton
  refine ⟨by norm_num, by norm_num, ?_⟩
  show (1000 : ℝ) < ((UNIT : ℚ) : ℝ)
  norm_num [UNIT]

theorem kLogTerm_clamped {inputLo inputHi mu sigma : ℝ} {D k : ℤ}
    (hLo : zVal inputLo mu sigma k < -8) (hHi : 8 < zVal inputHi mu sigma k) :
    kLogTerm inputLo inputHi mu sigma D k = some (log2Binomial D k) := by
  rw [kLogTerm_eq]
  have hpk : pKval inputLo inputHi mu sigma k = 1 := by
    unfold pKval
    rw [normalCdf_of_lt hLo, normalCdf_of_gt hHi]
    norm_num
  rw [hpk, if_neg (by norm_num), Real.logb_one, add_zero]

theorem kLogTerm_none_same (inputLo mu sigma : ℝ) (D k : ℤ) :
    kLogTerm inputLo inputLo mu sigma D k = none := by
  rw [kLogTerm_eq, if_pos]
  unfold pKval
  simp

theorem scoreFromBucket_single_clamped {inputLo inputHi : ℝ} {b : PoolBucket}
    {kMin kMax : ℤ} (hc : ¬ b.count = 0) (hsig : ¬ bucketSigma b = 0)
    (heff : min kMax b.count = kMin)
    (hLo : zVal inputLo (bucketMu b) (bucketSigma b) kMin < -8)
    (hHi : 8 < zVal inputHi (bucketMu b) (bucketSigma b) kMin) :
    scoreFromBucket inputLo inputHi b kMin kMax
      = max 0 (log2Binomial b.count kMin) := by
  unfold scoreFromBucket
  rw [if_neg hc, if_neg hsig, heff, if_neg (lt_irrefl _), intRange_self,
    List.filterMap_cons, kLogTerm_clamped hLo hHi, List.filterMap_nil]
  show max 0 (logSumExp2 (log2Binomial b.count kMin) []) = _
  rw [logSumExp2_singleton]

theorem scoreFromBucket_single_none {inputLo inputHi : ℝ} {b : PoolBucket}
    {kMin kMax : ℤ} (hc : ¬ b.count = 0) (hsig : ¬ bucketSigma b = 0)
    (heff : min kMax b.count = kMin)
    (hnone : kLogTerm inputLo inputHi (bucketMu b) (bucketSigma b) b.count kMin = none) :
    scoreFromBucket inputLo inputHi b kMin kMax = 0 := by
  unfold scoreFromBucket
  rw [if_neg hc, if_neg hsig, heff, if_neg (lt_irrefl _), intRange_self,
    List.filterMap_cons, hnone, List.filterMap_nil]

theorem c2_score_neg500 :
    privacyScore (-1000) (-500) c2Pool 20000 1 1 = 1 := by
  rw [privacyScore_eq, feeMultiplier_twenty]
  norm_num
  rw [c2_selectBucket]
  show scoreFromBucket 1000 1500 _ 1 1 = 1
  rw [scoreFromBucket_single_clamped (by norm_num) (by rw [c2_bucketSigma]; norm_num)
    (by norm_num)
    (by rw [c2_bucketMu, c2_bucketSigma]; unfold zVal; norm_num [Real.sqrt_one])
    (by rw [c2_bucketMu, c2_bucketSigma]; unfold zVal; norm_num [Real.sqrt_one])]
  show max 0 (log2Binomial 2 1) = 1
  rw [log2Binomial_one (by norm_num), show ((2:ℤ):ℝ) = 2 by norm_num,
    Real.logb_self_eq_one (by norm_num)]
  norm_num

theorem c2_score_zero :
    privacyScore (-1000) 0 c2Pool 20000 1 1 = 0 := by
  rw [privacyScore_eq, feeMultiplier_twenty]
  norm_num
  rw [c2_selectBucket]
  show scoreFromBucket 1000 1000 _ 1 1 = 0
  rw [scoreFromBucket_single_none (by norm_num) (by rw [c2_bucketSigma]; norm_num)
    (by norm_num) (kLogTerm_none_same 1000 _ _ _ _)]

theorem c2_findMinDist :
    findMinDist (-1000) c2Pool 20000 1 1 1 (1/2) = some (-500) := by
  unfold findMinDist
  rw [show ⌊(-1000:ℝ) * (1/2)⌋ = (-500:ℤ) by norm_num]
  dsimp only
  rw [show ((-500:ℤ):ℝ) = (-500:ℝ) by norm_num]
  rw [c2_score_neg500]
  rw [show ((0:ℤ):ℝ) = (0:ℝ) by norm_num]
  rw [c2_score_zero]
  rw [if_neg (by norm_num), if_neg (by norm_num)]
  congr 1
  rw [searchLoop]
  rw [dif_neg (by norm_num)]

theorem two_rpow_ten : (2:ℝ) ^ (10:ℝ) = 1024 := by
  rw [show (10:ℝ) = ((10:ℕ):ℝ) by norm_num, Real.rpow_natCast]
  norm_num

theorem c9_L_lt : Real.logb 2 1000 < 10 := by
  rw [Real.logb_lt_iff_lt_rpow (by norm_num) (by norm_num), two_rpow_ten]
  norm_num

theorem c9_L_ge : (199/20 : ℝ) ≤ Real.logb 2 1000 := by
  rw [Real.le_logb_iff_rpow_le (by norm_num) (by norm_num)]
  by_contra hlt
  push_neg at hlt
  have h20 : ((1000:ℝ)) ^ (20:ℕ) < ((2:ℝ) ^ ((199:ℝ)/20)) ^ (20:ℕ) :=
    pow_lt_pow_left₀ hlt (by norm_num) (by norm_num)
  rw [← Real.rpow_natCast ((2:ℝ) ^ ((199:ℝ)/20)) 20,
    ← Real.rpow_mul (by norm_num : (0:ℝ) ≤ 2)] at h20
  norm_num at h20

theorem c9_round : round (Real.logb 2 1000 * 10) = (100:ℤ) := by
  have h1 := c9_L_lt
  have h2 := c9_L_ge
  rw [round_eq]
  apply Int.floor_eq_iff.mpr
  constructor
  · push_cast
    linarith
  · push_cast
    linarith

theorem c9_mu : bucketMu { lo := 0, hi := UNIT, count := 1000, sumAmounts := 1200000, sumAmountsSquared := 1440001000 } = 1200 := by
  unfold bucketMu; norm_num

theorem c9_sigma : bucketSigma { lo := 0, hi := UNIT, count := 1000, sumAmounts := 1200000, sumAmountsSquared := 1440001000 } = 1 := by
  unfold bucketSigma bucketMeanSq bucketMu
  norm_num

theorem c9_selectBucket : selectBucket c9Pool 1000 = some
    { lo := 0, hi := UNIT, count := 1000, sumAmounts := 1200000,
      sumAmountsSquared := 1440001000 } := by
  apply selectBucket_singleton
  refine ⟨by norm_num, by norm_num, ?_⟩
  show (1000 : ℝ) < ((UNIT : ℚ) : ℝ)
  norm_num [UNIT]

theorem c9_score : privacyScore 1000 2000 c9Pool 0 1 1 = Real.logb 2 1000 := by
  rw [privacyScore_eq, feeMultiplier_zero]
  norm_num
  rw [c9_selectBucket]
  show scoreFromBucket 1000 3000 _ 1 1 = _
  rw [scoreFromBucket_single_clamped (by norm_num) (by rw [c9_sigma]; norm_num)
    (by norm_num)
    (by rw [c9_mu, c9_sigma]; unfold zVal; norm_num [Real.sqrt_one])
    (by rw [c9_mu, c9_sigma]; unfold zVal; norm_num [Real.sqrt_one])]
  show max 0 (log2Binomial 1000 1) = _
  rw [log2Binomial_one (by norm_num), show ((1000:ℤ):ℝ) = 1000 by norm_num]
  rw [max_eq_right (Real.logb_nonneg (by norm_num) (by norm_num))]

theorem c9_label : scoreLabel (Real.logb 2 1000) = "Critical" := by
  unfold scoreLabel
  rw [if_pos c9_L_lt]

theorem scoreLabel_ten : scoreLabel 10 = "Weak" := by
  unfold scoreLabel
  rw [if_neg (by norm_num), if_pos (by norm_num)]

theorem c9_table : privacyScoreTable 1000 c9Pool 0 1 1 [2]
    = [{ dist := 2000, scoreBits := 10, label := "Critical" }] := by
  unfold privacyScoreTable
  rw [List.map_cons, List.map_nil]
  dsimp only
  rw [show ⌊(1000:ℝ) * 2⌋ = (2000:ℤ) by norm_num]
  rw [show ((2000:ℤ):ℝ) = (2000:ℝ) by norm_num]
  rw [c9_score, c9_round, c9_label]
  norm_num

theorem standardEmptyTail_count : ∀ b ∈ standardEmptyTail, b.count = 0 := by
  intro b hb
  simp only [standardEmptyTail, List.mem_map] at hb
  obtain ⟨i, _, rfl⟩ := hb
  rfl

set_option maxRecDepth 10000 in
theorem w8Pool_eq : w8Pool =
    ⟨{ lo := 0, hi := UNIT, count := 2, sumAmounts := 2400,
       sumAmountsSquared := 2880002 } :: standardEmptyTail⟩ := by
  simp only [w8Pool, addDeposit, createPool, standardBucketBoundaries, standardEmptyTail,
    List.map_cons, List.map_map]
  norm_num [List.range_succ, UNIT]

theorem w8Flat_eq : w8Flat =
    { totalDeposits := 2, sumAmounts := 2400, sumAmountsSquared := 2880002 } := by
  norm_num [w8Flat, flatAddDeposit, flatCreatePool]

theorem w8_selectBucket : selectBucket w8Pool 1000 = some
    { lo := 0, hi := UNIT, count := 2, sumAmounts := 2400,
      sumAmountsSquared := 2880002 } := by
  rw [w8Pool_eq]
  have hq : qualifies 1000 ({ lo := 0, hi := UNIT, count := 2, sumAmounts := 2400, sumAmountsSquared := 2880002 } : PoolBucket) := by
    refine ⟨by norm_num, by norm_num, ?_⟩
    show (1000 : ℝ) < ((UNIT : ℚ) : ℝ)
    norm_num [UNIT]
  cases h : selectBucket ⟨{ lo := 0, hi := UNIT, count := 2, sumAmounts := 2400, sumAmountsSquared := 2880002 } :: standardEmptyTail⟩ 1000 with
  | none =>
    exact absurd hq ((selectBucket_none_iff _ _).mp h _ (List.mem_cons_self _ _))
  | some bq =>
    obtain ⟨hmem, hqual, _⟩ := selectBucket_some_spec h
    rcases List.mem_cons.mp hmem with rfl | hmem
    · rfl
    · exact absurd (standardEmptyTail_count bq hmem) hqual.1

theorem w8_selectBucket_neg : selectBucket w8Pool (-10000) = none := by
  rw [w8Pool_eq, selectBucket_none_iff]
  intro b hb
  rcases List.mem_cons.mp hb with rfl | hb
  · rintro ⟨-, hlo, -⟩
    revert hlo
    show ¬ (((0 : ℚ) : ℝ) ≤ (-10000 : ℝ))
    norm_num
  · rintro ⟨hc, -⟩
    exact hc (standardEmptyTail_count b hb)

theorem w8_bucketed_score_neg :
    privacyScore (-10000) 20000 w8Pool 0 1 1 = 0 := by
  rw [privacyScore_eq, feeMultiplier_zero]
  norm_num
  rw [w8_selectBucket_neg]

theorem flatScore_single_clamped {out dist : ℝ} {fp : FlatPoolStats} {fee kMin kMax : ℤ}
    (h0 : ¬ fp.totalDeposits = 0) (hsig : ¬ poolStddev fp = 0)
    (heff : min kMax fp.totalDeposits = kMin)
    (hLo : zVal (out * feeMultiplier fee) (poolMean fp) (poolStddev fp) kMin < -8)
    (hHi : 8 < zVal ((out + dist) * feeMultiplier fee) (poolMean fp) (poolStddev fp) kMin) :
    flatPrivacyScore out dist fp fee kMin kMax
      = log2Binomial fp.totalDeposits kMin := by
  unfold flatPrivacyScore
  rw [if_neg h0, if_neg hsig, heff, if_neg (lt_irrefl _), intRange_self,
    List.filterMap_cons, kLogTerm_clamped hLo hHi, List.filterMap_nil]
  show logSumExp2 (log2Binomial fp.totalDeposits kMin) [] = _
  rw [logSumExp2_singleton]

theorem w8f_mean :
    poolMean { totalDeposits := 2, sumAmounts := 2400, sumAmountsSquared := 2880002 } = 1200 := by
  unfold poolMean
  norm_num

theorem w8f_stddev :
    poolStddev { totalDeposits := 2, sumAmounts := 2400, sumAmountsSquared := 2880002 } = 1 := by
  unfold poolStddev
  rw [if_neg (by norm_num)]
  dsimp only
  rw [show ((2880002:ℤ):ℝ) / ((2:ℤ):ℝ)
      - ((2400:ℤ):ℝ) / ((2:ℤ):ℝ) * (((2400:ℤ):ℝ) / ((2:ℤ):ℝ)) = 1 by norm_num]
  rw [max_eq_right (by norm_num : (0:ℝ) ≤ 1), Real.sqrt_one]

theorem w8_flat_score :
    flatPrivacyScore (-10000) 20000 w8Flat 0 1 1 = 1 := by
  rw [w8Flat_eq]
  rw [flatScore_single_clamped (by norm_num) (by rw [w8f_stddev]; norm_num)
    (by norm_num)
    (by
      rw [w8f_mean, w8f_stddev, feeMultiplier_zero]
      unfold zVal
      norm_num [Real.sqrt_one])
    (by
      rw [w8f_mean, w8f_stddev, feeMultiplier_zero]
      unfold zVal
      norm_num [Real.sqrt_one])]
  show log2Binomial 2 1 = 1
  rw [log2Binomial_one (by norm_num), show ((2:ℤ):ℝ) = 2 by norm_num,
    Real.logb_self_eq_one (by norm_num)]

theorem bucketed_eq_max_flat (outputAmount dist : ℝ) (feeBps kMin kMax : ℤ)
    (pool : DepositPoolStats) (fp : FlatPoolStats) (b : PoolBucket)
    (hsel : selectBucket pool (outputAmount * feeMultiplier feeBps) = some b)
    (hcount : fp.totalDeposits = b.count)
    (hsum : fp.sumAmounts = b.sumAmounts)
    (hsq : fp.sumAmountsSquared = b.sumAmountsSquared)
    (hD : 2 ≤ b.count) :
    privacyScore outputAmount dist pool feeBps kMin kMax
      = max 0 (flatPrivacyScore outputAmount dist fp feeBps kMin kMax) := by
  rw [privacyScore_eq, hsel]
  show scoreFromBucket (outputAmount * feeMultiplier feeBps)
      ((outputAmount + dist) * feeMultiplier feeBps) b kMin kMax
    = max 0 (flatPrivacyScore outputAmount dist fp feeBps kMin kMax)
  have hmu : poolMean fp = bucketMu b := by
    unfold poolMean bucketMu
    rw [if_neg (by omega), hcount, hsum]
  have hsig : poolStddev fp = bucketSigma b := by
    unfold poolStddev bucketSigma bucketMeanSq bucketMu
    rw [if_neg (by omega), hcount, hsum, hsq]
  unfold scoreFromBucket flatPrivacyScore
  rw [if_neg (by omega : ¬ b.count = 0), if_neg (by omega : ¬ fp.totalDeposits = 0),
    hsig, hcount, hmu]
  by_cases hs0 : bucketSigma b = 0
  · rw [if_pos hs0, if_pos hs0]
    norm_num
  rw [if_neg hs0, if_neg hs0]
  by_cases hk : min kMax b.count < kMin
  · rw [if_pos hk, if_pos hk]
    norm_num
  rw [if_neg hk, if_neg hk]
  cases hfm : (intRange kMin (min kMax b.count)).filterMap
      (kLogTerm (outputAmount * feeMultiplier feeBps)
        ((outputAmount + dist) * feeMultiplier feeBps) (bucketMu b) (bucketSigma b)
        b.count) with
  | nil => norm_num
  | cons t ts => rfl


/-! ### Serialization, no-op deposits, calibrator characterization -/


theorem poolFromJson_poolToJson (pool : DepositPoolStats)
    (hinv : ∀ b ∈ pool.buckets, bucketInv b) :
    poolFromJson (poolToJson pool) = pool := by
  unfold poolToJson poolFromJson
  cases pool with
  | mk bs =>
    congr 1
    rw [List.map_map]
    conv_rhs => rw [← List.map_id bs]
    apply List.map_congr_left
    intro b hb
    obtain ⟨-, -, hs, hs2⟩ := hinv b hb
    show ({ lo := b.lo, hi := b.hi, count := b.count,
            sumAmounts := decStringToInt (intToDecString b.sumAmounts),
            sumAmountsSquared := decStringToInt (intToDecString b.sumAmountsSquared) }
          : PoolBucket) = id b
    rw [decStringToInt_intToDecString hs, decStringToInt_intToDecString hs2]
    rfl

theorem addDeposit_noop {pool : DepositPoolStats} {a : ℤ}
    (h : ∀ b ∈ pool.buckets, ¬ ((a : ℚ) < b.hi)) :
    addDeposit pool a = pool := by
  unfold addDeposit
  cases pool with
  | mk bs =>
    congr 1
    conv_rhs => rw [← List.map_id bs]
    apply List.map_congr_left
    intro b hb
    rw [if_neg (fun hc => h b hb hc.2)]
    rfl

theorem removeDeposit_noop {pool : DepositPoolStats} {a : ℤ}
    (h : ∀ b ∈ pool.buckets, ¬ ((a : ℚ) < b.hi)) :
    removeDeposit pool a = pool := by
  unfold removeDeposit
  cases pool with
  | mk bs =>
    congr 1
    conv_rhs => rw [← List.map_id bs]
    apply List.map_congr_left
    intro b hb
    rw [if_neg (fun hc => h b hb hc.2)]
    rfl

theorem standardBounds_hi {pool : DepositPoolStats} (hstd : standardBounds pool)
    {a : ℤ} (ha : 32768 * UNIT ≤ (a : ℚ)) :
    ∀ b ∈ pool.buckets, ¬ ((a : ℚ) < b.hi) := by
  intro b hb
  have hmem : (b.lo, b.hi) ∈ standardBucketBoundaries := by
    rw [← hstd]
    exact List.mem_map_of_mem _ hb
  have h2 : b.hi ≤ 32768 * UNIT := standardBucketBoundaries_hi_le _ hmem
  intro hc
  linarith

theorem standardBounds_createPool : standardBounds createPool := by
  unfold standardBounds createPool
  rw [List.map_map]
  conv_rhs => rw [← List.map_id standardBucketBoundaries]
  apply List.map_congr_left
  intro pr _
  rfl

theorem log2Binomial_symm (n k : ℤ) : log2Binomial n k = log2Binomial n (n - k) := by
  unfold log2Binomial
  by_cases h1 : k < 0 ∨ n < k
  · rw [if_pos h1, if_pos (show n - k < 0 ∨ n < n - k by omega)]
  · rw [if_neg h1, if_neg (show ¬(n - k < 0 ∨ n < n - k) by omega)]
    by_cases h2 : k = 0 ∨ k = n
    · rw [if_pos h2, if_pos (show n - k = 0 ∨ n - k = n by omega)]
    · rw [if_neg h2, if_neg (show ¬(n - k = 0 ∨ n - k = n) by omega)]
      rw [show min (n - k) (n - (n - k)) = min k (n - k) by omega]

theorem log2Binomial_zero_cases {n k : ℤ} (h : k < 0 ∨ n < k ∨ k = 0 ∨ k = n) :
    log2Binomial n k = 0 := by
  unfold log2Binomial
  by_cases h1 : k < 0 ∨ n < k
  · rw [if_pos h1]
  · rw [if_neg h1, if_pos (show k = 0 ∨ k = n by omega)]

theorem findMinDist_characterization (outputAmount : ℝ) (pool : DepositPoolStats)
    (feeBps kMin kMax : ℤ) (targetBits maxDistFraction : ℝ)
    (hmd : 0 ≤ ⌊outputAmount * maxDistFraction⌋) :
    (findMinDist outputAmount pool feeBps kMin kMax targetBits maxDistFraction = none
      ↔ privacyScore outputAmount ((⌊outputAmount * maxDistFraction⌋ : ℤ) : ℝ)
          pool feeBps kMin kMax < targetBits)
    ∧ (targetBits ≤ privacyScore outputAmount ((⌊outputAmount * maxDistFraction⌋ : ℤ) : ℝ)
          pool feeBps kMin kMax →
        targetBits ≤ privacyScore outputAmount 0 pool feeBps kMin kMax →
        findMinDist outputAmount pool feeBps kMin kMax targetBits maxDistFraction = some 0)
    ∧ (targetBits ≤ privacyScore outputAmount ((⌊outputAmount * maxDistFraction⌋ : ℤ) : ℝ)
          pool feeBps kMin kMax →
        privacyScore outputAmount 0 pool feeBps kMin kMax < targetBits →
        ∃ d : ℤ, findMinDist outputAmount pool feeBps kMin kMax targetBits maxDistFraction
            = some d
          ∧ 0 < d ∧ d ≤ ⌊outputAmount * maxDistFraction⌋
          ∧ targetBits ≤ privacyScore outputAmount ((d : ℤ) : ℝ) pool feeBps kMin kMax
          ∧ privacyScore outputAmount ((d - 1 : ℤ) : ℝ) pool feeBps kMin kMax < targetBits) := by
  unfold findMinDist
  dsimp only
  rw [show ((0:ℤ):ℝ) = (0:ℝ) from Int.cast_zero]
  refine ⟨?_, ?_, ?_⟩
  · by_cases h1 : privacyScore outputAmount ((⌊outputAmount * maxDistFraction⌋ : ℤ) : ℝ)
        pool feeBps kMin kMax < targetBits
    · rw [if_pos h1]
      simp [h1]
    · rw [if_neg h1]
      constructor
      · intro h
        split_ifs at h
      · intro h
        exact absurd h h1
  · intro hM h0
    rw [if_neg (not_lt.mpr hM), if_pos h0]
  · intro hM h0
    rw [if_neg (not_lt.mpr hM), if_neg (not_le.mpr h0)]
    have hMpos : 0 < ⌊outputAmount * maxDistFraction⌋ := by
      rcases eq_or_lt_of_le hmd with he | hlt
      · exfalso
        rw [← he] at hM
        rw [show (((0:ℤ)):ℝ) = (0:ℝ) from Int.cast_zero] at hM
        linarith
      · exact hlt
    have hspec := searchLoop_spec
      (fun d : ℤ => privacyScore outputAmount (d : ℝ) pool feeBps kMin kMax) targetBits
      (⌊outputAmount * maxDistFraction⌋).toNat 0 ⌊outputAmount * maxDistFraction⌋
      (by omega) hMpos (by simpa using h0) hM
    exact ⟨_, rfl, hspec.1, hspec.2.1, hspec.2.2.1, hspec.2.2.2⟩

set_option maxRecDepth 10000 in
theorem c4w_eq : applyOps createPool [PoolOp.add 5, PoolOp.remove 7] =
    ⟨{ lo := 0, hi := UNIT, count := 0, sumAmounts := 0,
       sumAmountsSquared := 0 } :: standardEmptyTail⟩ := by
  show removeDeposit (addDeposit createPool 5) 7 = _
  simp only [addDeposit, removeDeposit, createPool, standardBucketBoundaries,
    standardEmptyTail, List.map_cons, List.map_map]
  norm_num [List.range_succ, UNIT]

theorem c5_selectBucket : selectBucket c5Pool 5 = some
    { lo := 0, hi := 10, count := -1, sumAmounts := 0, sumAmountsSquared := 0 } := by
  apply selectBucket_singleton
  refine ⟨by norm_num, by norm_num, ?_⟩
  show (5 : ℝ) < ((10 : ℚ) : ℝ)
  norm_num

-- ## Claim theorems, witnesses, and counterexamples

/-- C1: privacyScore is non-decreasing in dist with every other parameter
fixed, for dist values 0 ≤ d1 ≤ d2: widening the pre-fee input range never
loses probability mass, the selected bucket depends only on inputLo, and for
a negative fee multiplier every term is skipped at every nonnegative dist. -/
theorem C1_privacyScore_monotone_in_dist (outputAmount : ℝ) (pool : DepositPoolStats)
    (feeBps kMin kMax : ℤ) (d1 d2 : ℝ) (h0 : 0 ≤ d1) (h12 : d1 ≤ d2) :
    privacyScore outputAmount d1 pool feeBps kMin kMax
      ≤ privacyScore outputAmount d2 pool feeBps kMin kMax :=
  privacyScore_mono_dist outputAmount pool feeBps kMin kMax h0 h12

/-- Witness for C1 at a concrete input. -/
theorem C1_witness :
    (0:ℝ) ≤ 0 ∧ (0:ℝ) ≤ 1
    ∧ privacyScore 100 0 createPool 10 1 16 ≤ privacyScore 100 1 createPool 10 1 16 :=
  ⟨le_refl 0, zero_le_one,
    C1_privacyScore_monotone_in_dist 100 createPool 10 1 16 0 1 (le_refl 0) zero_le_one⟩

/-- C2 counterexample: with feeBps = 20000 the fee multiplier is negative, a
negative outputAmount makes maxDist = -500 negative, and the binary search
returns some (-500) in the case where the claim demands a positive dist:
the score at dist -500 is one bit while the score at dist 0 is below the
one-bit target, yet the returned integer is not positive. -/
theorem C2_counterexample :
    findMinDist (-1000) c2Pool 20000 1 1 1 (1/2) = some (-500)
    ∧ ⌊(-1000:ℝ) * (1/2)⌋ = (-500:ℤ)
    ∧ (1:ℝ) ≤ privacyScore (-1000) (-500) c2Pool 20000 1 1
    ∧ privacyScore (-1000) 0 c2Pool 20000 1 1 < 1 :=
  ⟨c2_findMinDist, by norm_num, by rw [c2_score_neg500], by rw [c2_score_zero]; norm_num⟩

/-- C2 (amended): provided maxDist = floor(outputAmount * maxDistFraction) is
nonnegative, findMinDist returns none exactly when the score at maxDist is
below the target; otherwise it returns 0 when the score at dist 0 already
meets the target; otherwise it returns d with 0 < d ≤ maxDist whose score
meets the target while the score at d - 1 does not. -/
theorem C2_findMinDist_spec (outputAmount : ℝ) (pool : DepositPoolStats)
    (feeBps kMin kMax : ℤ) (targetBits maxDistFraction : ℝ)
    (hmd : 0 ≤ ⌊outputAmount * maxDistFraction⌋) :
    (findMinDist outputAmount pool feeBps kMin kMax targetBits maxDistFraction = none
      ↔ privacyScore outputAmount ((⌊outputAmount * maxDistFraction⌋ : ℤ) : ℝ)
          pool feeBps kMin kMax < targetBits)
    ∧ (targetBits ≤ privacyScore outputAmount ((⌊outputAmount * maxDistFraction⌋ : ℤ) : ℝ)
          pool feeBps kMin kMax →
        targetBits ≤ privacyScore outputAmount 0 pool feeBps kMin kMax →
        findMinDist outputAmount pool feeBps kMin kMax targetBits maxDistFraction = some 0)
    ∧ (targetBits ≤ privacyScore outputAmount ((⌊outputAmount * maxDistFraction⌋ : ℤ) : ℝ)
          pool feeBps kMin kMax →
        privacyScore outputAmount 0 pool feeBps kMin kMax < targetBits →
        ∃ d : ℤ, findMinDist outputAmount pool feeBps kMin kMax targetBits maxDistFraction
            = some d
          ∧ 0 < d ∧ d ≤ ⌊outputAmount * maxDistFraction⌋
          ∧ targetBits ≤ privacyScore outputAmount ((d : ℤ) : ℝ) pool feeBps kMin kMax
          ∧ privacyScore outputAmount ((d - 1 : ℤ) : ℝ) pool feeBps kMin kMax < targetBits) :=
  findMinDist_characterization outputAmount pool feeBps kMin kMax targetBits
    maxDistFraction hmd

/-- Witness for C2 at a concrete input. -/
theorem C2_witness :
    (0:ℤ) ≤ ⌊(10:ℝ) * (1/10)⌋
    ∧ findMinDist 10 createPool 0 1 16 (-1) (1/10) = some 0 :=
  ⟨by norm_num,
    (C2_findMinDist_spec 10 createPool 0 1 16 (-1) (1/10) (by norm_num)).2.1
      (by rw [privacyScore_createPool]; norm_num)
      (by rw [privacyScore_createPool]; norm_num)⟩

/-- C3: in the real-number idealization of the arithmetic, privacyScore is a
total function whose result is clamped at a floor of zero for every input,
however malformed. The IEEE-level NaN escape reported for this claim lives
outside this idealization. -/
theorem C3_privacyScore_total_nonneg :
    ∀ (outputAmount dist : ℝ) (pool : DepositPoolStats) (feeBps kMin kMax : ℤ),
      0 ≤ privacyScore outputAmount dist pool feeBps kMin kMax :=
  fun outputAmount dist pool feeBps kMin kMax =>
    privacyScore_nonneg outputAmount dist pool feeBps kMin kMax

/-- C4: after every sequence of addDeposit and removeDeposit operations with
nonnegative amounts starting from createPool, every bucket has nonnegative
count, sumAmounts, and sumAmountsSquared: removal clamps at a zero floor. -/
theorem C4_pool_invariant (ops : List PoolOp) (hops : ∀ op ∈ ops, 0 ≤ op.amount) :
    ∀ b ∈ (applyOps createPool ops).buckets,
      0 ≤ b.count ∧ 0 ≤ b.sumAmounts ∧ 0 ≤ b.sumAmountsSquared := by
  intro b hb
  obtain ⟨-, h1, h2, h3⟩ := bucketInv_applyOps ops createPool bucketInv_createPool b hb
  exact ⟨h1, h2, h3⟩

/-- Witness for C4 at a concrete operation sequence: adding 5 then removing 7
drives the clamps. -/
theorem C4_witness :
    (∀ op ∈ [PoolOp.add 5, PoolOp.remove 7], 0 ≤ op.amount)
    ∧ (0 ≤ ((⟨0, UNIT, 0, 0, 0⟩ : PoolBucket)).count
      ∧ 0 ≤ ((⟨0, UNIT, 0, 0, 0⟩ : PoolBucket)).sumAmounts
      ∧ 0 ≤ ((⟨0, UNIT, 0, 0, 0⟩ : PoolBucket)).sumAmountsSquared) :=
  ⟨by decide,
    C4_pool_invariant [PoolOp.add 5, PoolOp.remove 7] (by decide) _
      (by rw [c4w_eq]; exact List.mem_cons_self _ _)⟩

/-- C5 counterexample: the PoolBucket type admits a negative count, which the
scan treats as nonzero; selectBucket then returns a bucket even though no
bucket has positive count, contradicting the claim read with count > 0. -/
theorem C5_counterexample :
    selectBucket c5Pool 5 = some
      { lo := 0, hi := 10, count := -1, sumAmounts := 0, sumAmountsSquared := 0 }
    ∧ ∀ b ∈ c5Pool.buckets, ¬ (0 < b.count) := by
  refine ⟨c5_selectBucket, ?_⟩
  intro b hb
  simp only [c5Pool, List.mem_singleton] at hb
  rw [hb]
  decide

/-- C5 (amended): selectBucket returns none exactly when no bucket has
nonzero count and a half-open range containing the target, and any returned
bucket is a qualifying bucket of minimal headroom hi - target; on pools whose
counts are nonnegative, nonzero count coincides with positive count. -/
theorem C5_selectBucket_spec (pool : DepositPoolStats) (target : ℝ) :
    (selectBucket pool target = none ↔ ∀ b ∈ pool.buckets, ¬ qualifies target b)
    ∧ ∀ b, selectBucket pool target = some b →
        b ∈ pool.buckets ∧ qualifies target b
        ∧ ∀ b2 ∈ pool.buckets, qualifies target b2 →
            (b.hi : ℝ) - target ≤ (b2.hi : ℝ) - target :=
  ⟨selectBucket_none_iff pool target, fun _ h => selectBucket_some_spec h⟩

/-- Witness for C5 at a concrete pool and target. -/
theorem C5_witness :
    ((⟨0, UNIT, 2, 2400, 2880002⟩ : PoolBucket)) ∈ c2Pool.buckets
    ∧ qualifies 1000 ((⟨0, UNIT, 2, 2400, 2880002⟩ : PoolBucket)) :=
  ⟨((C5_selectBucket_spec c2Pool 1000).2 _ c2_selectBucket).1,
    ((C5_selectBucket_spec c2Pool 1000).2 _ c2_selectBucket).2.1⟩

/-- C6: deserializing the serialization of any pool reachable from createPool
reproduces the pool exactly; in particular the two sums, transported as
decimal strings, lose no precision. -/
theorem C6_serialization_roundtrip :
    ∀ ops : List PoolOp,
      poolFromJson (poolToJson (applyOps createPool ops)) = applyOps createPool ops :=
  fun ops => poolFromJson_poolToJson _ (bucketInv_applyOps ops createPool bucketInv_createPool)

/-- C7: log2Binomial is symmetric in k versus n - k and returns zero whenever
k < 0, k > n, k = 0, or k = n. -/
theorem C7_log2Binomial_symm_and_zero :
    ∀ n k : ℤ,
      log2Binomial n k = log2Binomial n (n - k)
      ∧ ((k < 0 ∨ n < k ∨ k = 0 ∨ k = n) → log2Binomial n k = 0) :=
  fun n k => ⟨log2Binomial_symm n k, fun h => log2Binomial_zero_cases h⟩

/-- Witness for C7 at a concrete pair. -/
theorem C7_witness :
    log2Binomial 5 7 = log2Binomial 5 (5 - 7) ∧ log2Binomial 5 7 = 0 :=
  ⟨(C7_log2Binomial_symm_and_zero 5 7).1,
    (C7_log2Binomial_symm_and_zero 5 7).2 (Or.inr (Or.inl (by decide)))⟩

/-- C8 counterexample: the two deposits 1199 and 1201 both fall in the range
of the single bucket [0, UNIT), yet at outputAmount = -10000 the pre-fee
target -10000 lies below every bucket range, so the bucketed score is zero,
while the flat implementation scores the same deposits as one bit. Every
arithmetic step here is exact in IEEE doubles as well: mean 1200, mean
square 1440001, variance 1, sigma 1, z values -11200 and 8800 (hitting the
CDF clamps at -8 and 8, so pK is exactly 1 and the single log term is
exactly log2 of binomial(2,1) = 1), so the divergence belongs to the
program, not to the real-number idealization. -/
theorem C8_counterexample :
    (∀ a ∈ ([1199, 1201] : List ℤ), (0:ℚ) ≤ (a:ℚ) ∧ (a:ℚ) < UNIT)
    ∧ privacyScore (-10000) 20000 w8Pool 0 1 1 = 0
    ∧ flatPrivacyScore (-10000) 20000 w8Flat 0 1 1 = 1
    ∧ (0:ℝ) ≠ 1 := by
  refine ⟨?_, w8_bucketed_score_neg, w8_flat_score, by norm_num⟩
  intro a ha
  fin_cases ha <;> constructor <;> norm_num [UNIT]

/-- C8 (amended): the bucketed score subsumes the flat score in the following
sense: whenever the bucket selected for the pre-fee target carries the same
statistics as the flat pool and holds at least two deposits, the bucketed
score equals the flat score clamped at a floor of zero. -/
theorem C8_bucketed_subsumes_flat (outputAmount dist : ℝ) (feeBps kMin kMax : ℤ)
    (pool : DepositPoolStats) (fp : FlatPoolStats) (b : PoolBucket)
    (hsel : selectBucket pool (outputAmount * feeMultiplier feeBps) = some b)
    (hcount : fp.totalDeposits = b.count)
    (hsum : fp.sumAmounts = b.sumAmounts)
    (hsq : fp.sumAmountsSquared = b.sumAmountsSquared)
    (hD : 2 ≤ b.count) :
    privacyScore outputAmount dist pool feeBps kMin kMax
      = max 0 (flatPrivacyScore outputAmount dist fp feeBps kMin kMax) :=
  bucketed_eq_max_flat outputAmount dist feeBps kMin kMax pool fp b hsel hcount hsum hsq hD

/-- Witness for C8 at a concrete pool of two deposits 1199 and 1201. -/
theorem C8_witness :
    selectBucket w8Pool (1000 * feeMultiplier 0)
        = some (⟨0, UNIT, 2, 2400, 2880002⟩ : PoolBucket)
    ∧ w8Flat.totalDeposits = ((⟨0, UNIT, 2, 2400, 2880002⟩ : PoolBucket)).count
    ∧ w8Flat.sumAmounts = ((⟨0, UNIT, 2, 2400, 2880002⟩ : PoolBucket)).sumAmounts
    ∧ w8Flat.sumAmountsSquared
        = ((⟨0, UNIT, 2, 2400, 2880002⟩ : PoolBucket)).sumAmountsSquared
    ∧ (2:ℤ) ≤ ((⟨0, UNIT, 2, 2400, 2880002⟩ : PoolBucket)).count
    ∧ privacyScore 1000 70 w8Pool 0 1 16
        = max 0 (flatPrivacyScore 1000 70 w8Flat 0 1 16) := by
  have hsel : selectBucket w8Pool (1000 * feeMultiplier 0)
      = some (⟨0, UNIT, 2, 2400, 2880002⟩ : PoolBucket) := by
    rw [feeMultiplier_zero, mul_one]
    exact w8_selectBucket
  have h1 : w8Flat.totalDeposits
      = ((⟨0, UNIT, 2, 2400, 2880002⟩ : PoolBucket)).count := by rw [w8Flat_eq]
  have h2 : w8Flat.sumAmounts
      = ((⟨0, UNIT, 2, 2400, 2880002⟩ : PoolBucket)).sumAmounts := by rw [w8Flat_eq]
  have h3 : w8Flat.sumAmountsSquared
      = ((⟨0, UNIT, 2, 2400, 2880002⟩ : PoolBucket)).sumAmountsSquared := by
    rw [w8Flat_eq]
  exact ⟨hsel, h1, h2, h3, le_refl 2,
    C8_bucketed_subsumes_flat 1000 70 0 1 16 w8Pool w8Flat _ hsel h1 h2 h3 (le_refl 2)⟩

/-- C9 counterexample: on a pool of 1000 statistical deposits the score is
log2 1000, just below 10 bits; the table row displays scoreBits = 10.0 yet
carries the label of the unrounded score, Critical, while scoreLabel applied
to the displayed 10.0 is Weak: the claimed agreement between scoreBits and
label fails. -/
theorem C9_counterexample :
    privacyScoreTable 1000 c9Pool 0 1 1 [2]
      = [{ dist := 2000, scoreBits := 10, label := "Critical" }]
    ∧ scoreLabel 10 = "Weak" :=
  ⟨c9_table, scoreLabel_ten⟩

/-- C9 (amended): table rows are produced in order, one per fraction, with
dist = floor(outputAmount * fraction), scoreBits = the score rounded to one
decimal, and label = scoreLabel applied to the UNROUNDED score. -/
theorem C9_table_rows (outputAmount : ℝ) (pool : DepositPoolStats)
    (feeBps kMin kMax : ℤ) (distFractions : List ℝ) (i : ℕ) :
    (privacyScoreTable outputAmount pool feeBps kMin kMax distFractions).get? i
      = (distFractions.get? i).map (fun frac =>
          { dist := ⌊outputAmount * frac⌋,
            scoreBits := (round (privacyScore outputAmount ((⌊outputAmount * frac⌋ : ℤ) : ℝ)
                pool feeBps kMin kMax * 10) : ℝ) / 10,
            label := scoreLabel (privacyScore outputAmount ((⌊outputAmount * frac⌋ : ℤ) : ℝ)
                pool feeBps kMin kMax) }) := by
  unfold privacyScoreTable
  rw [List.get?_map]

/-- C10: an amount of at least 32768 UNIT planck exceeds the exclusive upper
bound of every standard bucket, so addDeposit and removeDeposit leave the
pool unchanged and such deposits never influence any privacy score. -/
theorem C10_large_amounts_noop (pool : DepositPoolStats) (a : ℤ)
    (hstd : standardBounds pool) (ha : 32768 * UNIT ≤ (a : ℚ)) :
    addDeposit pool a = pool ∧ removeDeposit pool a = pool
    ∧ ∀ (outputAmount dist : ℝ) (feeBps kMin kMax : ℤ),
        privacyScore outputAmount dist (addDeposit pool a) feeBps kMin kMax
          = privacyScore outputAmount dist pool feeBps kMin kMax
        ∧ privacyScore outputAmount dist (removeDeposit pool a) feeBps kMin kMax
          = privacyScore outputAmount dist pool feeBps kMin kMax := by
  have h := standardBounds_hi hstd ha
  have h1 := addDeposit_noop h
  have h2 := removeDeposit_noop h
  exact ⟨h1, h2, fun _ _ _ _ _ => ⟨by rw [h1], by rw [h2]⟩⟩

/-- Witness for C10 at the smallest out-of-range amount. -/
theorem C10_witness :
    standardBounds createPool
    ∧ 32768 * UNIT ≤ ((32768000000000000:ℤ) : ℚ)
    ∧ addDeposit createPool 32768000000000000 = createPool :=
  ⟨standardBounds_createPool, by norm_num [UNIT],
    (C10_large_amounts_noop createPool 32768000000000000 standardBounds_createPool
      (by norm_num [UNIT])).1⟩

end PrivacyScore
